import Mathlib

/- Core marks the rational-number operations irreducible in favour of their
compiled implementations; restore definitional transparency so that concrete
audit computations evaluate inside `decide` (the kernel ignores reducibility
attributes, so nothing unsound is involved). -/
set_option allowUnsafeReducibility true in
attribute [semireducible] Rat.add Rat.sub Rat.neg Rat.mul Rat.inv Rat.div

set_option autoImplicit false

/-!
# Verification of the restic-kit log-analysis and audit engine

This file is a shallow embedding, in Lean 4, of the core of the `restic-kit`
repository: the artifact scanner and result parsers (`actions/notify_email.go`),
the audit engine (`actions/audit.go` together with the `checkRetentionPolicy`
variant), and the report renderer (`generateBodyFromActions`).

Modelling conventions, fixed once here:

* Go `float64` arithmetic is modelled with exact rationals (`ℚ`).  The audit
  thresholds and percentages are compared with the same comparison structure
  as the source; the printf-style `%.1f` / `%.2f` renderings are modelled by
  an exact fixed-point formatter (`formatQ1`, `formatQ2`) that rounds half
  away from zero.  No claim in this development depends on the rounding mode
  at an exact tie of the binary representation.
* `encoding/json` is treated as an abstract decoder (`JsonDecoder`): the
  parsers are parametrised by decoding functions `String → Option _`, with
  `none` standing for a JSON unmarshalling error.
* The filesystem is an explicit list of named files with contents and
  modification times (`GoFS`); `os.ReadFile` is association lookup and
  `filepath.Glob` is a suffix filter followed by a lexicographic sort, which
  is the order Go's `filepath.Glob` (via sorted `ReadDir`) returns.
* Go map iteration order is unspecified; the source neutralises this either
  by sorting the keys (renderer) or by emitting per-group results whose
  cross-group order no property depends on.  Grouping is modelled by an
  association-list fold in input order (first-occurrence key order).
* `sort.Slice` (unstable) and `sort.Strings` are modelled with Mathlib's
  stable `List.insertionSort`; every property proved below about a sorted
  list either holds for any sort consistent with the comparator or is
  evaluated on inputs with pairwise distinct keys.
* `time.Time` is modelled by `GoTime`: a civil day number (days since
  1970-01-01) plus a second-of-day; `Year`/`Month`/`Day` are derived with the
  standard civil-from-days algorithm, `Weekday` from the day number modulo 7,
  and `AddDate(0, 0, n)` adds to the day number (UTC, which is how the parsed
  RFC 3339 timestamps are used).  `time.Parse` is an abstract parameter
  `String → Option GoTime` (`none` = parse error); the claims below either
  quantify over it or evaluate it on concrete tables.
-/

/-! ## Character and string utilities -/

/-- The ASCII whitespace characters trimmed by `strings.TrimSpace`
(the Unicode-only whitespace code points do not occur in the artifacts). -/
def isSpaceChar (c : Char) : Bool :=
  c = ' ' || c = '\t' || c = '\n' || c = '\r' || c = '\x0b' || c = '\x0c'

/-- Go `strings.TrimSpace` on a character list. -/
def trimChars (l : List Char) : List Char :=
  ((l.dropWhile isSpaceChar).reverse.dropWhile isSpaceChar).reverse

/-- Go `strings.TrimSpace`. -/
def goTrimSpace (s : String) : String :=
  String.mk (trimChars s.data)

/-- Go `strings.Split(s, "\n")` on character lists: always returns at least one
(possibly empty) segment, one more segment per `'\n'`. -/
def splitNL : List Char → List (List Char)
  | [] => [[]]
  | c :: rest =>
    match splitNL rest with
    | [] => [[c]]
    | h :: t => if c = '\n' then [] :: h :: t else (c :: h) :: t

/-- Go `strings.Split(s, "\n")`. -/
def goSplitLines (s : String) : List String :=
  (splitNL s.data).map String.mk

/-- Lexicographic (byte-order) comparison of character lists, the order in
which Go's sorted `ReadDir` and `sort.Strings` enumerate names. -/
def lexLeChars : List Char → List Char → Bool
  | [], _ => true
  | _ :: _, [] => false
  | c :: cs, d :: ds =>
    if c.toNat < d.toNat then true
    else if d.toNat < c.toNat then false
    else lexLeChars cs ds

/-- Lexicographic string order as a Bool (Go's `<=` on strings). -/
def lexLe (a b : String) : Bool := lexLeChars a.data b.data

theorem lexLeChars_total : ∀ a b, lexLeChars a b = true ∨ lexLeChars b a = true := by
  intro a
  induction a with
  | nil => intro b; left; rfl
  | cons c cs ih =>
    intro b
    cases b with
    | nil => right; rfl
    | cons d ds =>
      simp only [lexLeChars]
      rcases Nat.lt_trichotomy c.toNat d.toNat with h | h | h
      · left; simp [h]
      · have h2 : ¬c.toNat < d.toNat := by omega
        have h3 : ¬d.toNat < c.toNat := by omega
        rcases ih ds with hl | hr
        · left; simp [h2, h3, hl]
        · right; simp [h2, h3, hr]
      · right; simp [h]

theorem lexLeChars_trans :
    ∀ a b c, lexLeChars a b = true → lexLeChars b c = true →
      lexLeChars a c = true := by
  intro a
  induction a with
  | nil => intro b c _ _; rfl
  | cons x xs ih =>
    intro b c hab hbc
    cases b with
    | nil => simp [lexLeChars] at hab
    | cons y ys =>
      cases c with
      | nil => simp [lexLeChars] at hbc
      | cons z zs =>
        simp only [lexLeChars] at hab hbc ⊢
        by_cases hxy : x.toNat < y.toNat <;> by_cases hyz : y.toNat < z.toNat
        · simp [show x.toNat < z.toNat by omega]
        · simp only [if_pos hxy] at hab
          simp only [if_neg hyz] at hbc
          by_cases hzy : z.toNat < y.toNat
          · simp [hzy] at hbc
          · have : y.toNat = z.toNat := by omega
            simp [show x.toNat < z.toNat by omega]
        · simp only [if_neg hxy] at hab
          by_cases hyx : y.toNat < x.toNat
          · simp [hyx] at hab
          · have : x.toNat = y.toNat := by omega
            simp [show x.toNat < z.toNat by omega]
        · simp only [if_neg hxy] at hab
          simp only [if_neg hyz] at hbc
          by_cases hyx : y.toNat < x.toNat
          · simp [hyx] at hab
          · by_cases hzy : z.toNat < y.toNat
            · simp [hzy] at hbc
            · simp only [if_neg hyx] at hab
              simp only [if_neg hzy] at hbc
              have h1 : ¬x.toNat < z.toNat := by omega
              have h2 : ¬z.toNat < x.toNat := by omega
              simp only [if_neg h1, if_neg h2]
              exact ih ys zs hab hbc

instance : IsTotal String (fun a b => lexLe a b = true) :=
  ⟨fun a b => lexLeChars_total a.data b.data⟩

instance : IsTrans String (fun a b => lexLe a b = true) :=
  ⟨fun a b c => lexLeChars_trans a.data b.data c.data⟩

/-- Decimal digits of `n`, least significant first, with explicit fuel so that
the definition is structural and evaluates in the kernel.  Fuel `n + 1` is
always sufficient. -/
def natCharsAux : Nat → Nat → List Char
  | 0, _ => []
  | fuel + 1, n =>
    if n < 10 then [Nat.digitChar n]
    else Nat.digitChar (n % 10) :: natCharsAux fuel (n / 10)

/-- Decimal rendering of a natural number (`fmt.Sprintf("%d", n)`). -/
def natChars (n : Nat) : List Char :=
  (natCharsAux (n + 1) n).reverse

/-- Decimal rendering of an integer (`fmt.Sprintf("%d", z)`). -/
def intChars (z : Int) : List Char :=
  if z < 0 then '-' :: natChars (-z).toNat else natChars z.toNat

/-- Go `fmt.Sprintf("%02d", n)`: zero-padded to width 2. -/
def pad2 (n : Nat) : List Char :=
  if n < 10 then '0' :: natChars n else natChars n

/-- Go `strconv.Itoa`. -/
def natToDec (n : Nat) : String := String.mk (natChars n)

/-- Go `fmt.Sprintf("%d", z)` as a string. -/
def intToDec (z : Int) : String := String.mk (intChars z)

/-- Value of a little-endian decimal digit-character list (used only to prove
that the decimal renderings are injective). -/
def charsVal : List Char → Nat
  | [] => 0
  | c :: rest => (c.toNat - '0'.toNat) + 10 * charsVal rest

theorem charsVal_natCharsAux :
    ∀ fuel n, n < 10 ^ fuel → charsVal (natCharsAux fuel n) = n := by
  intro fuel
  induction fuel with
  | zero =>
    intro n hn
    simp only [natCharsAux, charsVal]
    omega
  | succ fuel ih =>
    intro n hn
    by_cases h10 : n < 10
    · simp only [natCharsAux, if_pos h10, charsVal]
      interval_cases n <;> decide
    · simp only [natCharsAux, if_neg h10, charsVal]
      have hrec : charsVal (natCharsAux fuel (n / 10)) = n / 10 := by
        apply ih
        have : 10 ^ fuel = 10 ^ (fuel + 1) / 10 := by
          rw [pow_succ, Nat.mul_div_cancel] <;> omega
        omega
      rw [hrec]
      have hm : n % 10 < 10 := Nat.mod_lt _ (by omega)
      have hdg : (Nat.digitChar (n % 10)).toNat - '0'.toNat = n % 10 := by
        interval_cases h : n % 10 <;> decide
      omega

theorem charsVal_natChars (n : Nat) : charsVal (natChars n).reverse = n := by
  have h1 : n < 2 ^ n := Nat.lt_two_pow n
  have h2 : 2 ^ n ≤ 10 ^ n := Nat.pow_le_pow_left (by omega) n
  have h3 : 10 ^ n ≤ 10 ^ (n + 1) := Nat.pow_le_pow_right (by omega) (by omega)
  have h : n < 10 ^ (n + 1) := by omega
  simpa [natChars] using charsVal_natCharsAux (n + 1) n h

theorem natChars_injective : Function.Injective natChars := by
  intro a b hab
  have := charsVal_natChars a
  rw [hab, charsVal_natChars] at this
  omega

theorem natCharsAux_ne_nil (fuel n : Nat) (h : 0 < fuel) : natCharsAux fuel n ≠ [] := by
  cases fuel with
  | zero => omega
  | succ fuel =>
    simp only [natCharsAux]
    split <;> simp

theorem natChars_ne_nil (n : Nat) : natChars n ≠ [] := by
  simp only [natChars, ne_eq, List.reverse_eq_nil_iff]
  exact natCharsAux_ne_nil _ _ (by omega)

theorem mem_natCharsAux_isDigit :
    ∀ fuel n c, c ∈ natCharsAux fuel n → c.isDigit = true := by
  intro fuel
  induction fuel with
  | zero => intro n c hc; simp [natCharsAux] at hc
  | succ fuel ih =>
    intro n c hc
    simp only [natCharsAux] at hc
    split at hc
    · rename_i h10
      simp only [List.mem_singleton] at hc
      subst hc
      interval_cases n <;> decide
    · rcases List.mem_cons.mp hc with h | h
      · subst h
        have : n % 10 < 10 := Nat.mod_lt _ (by omega)
        interval_cases hh : n % 10 <;> decide
      · exact ih _ _ h

theorem mem_natChars_isDigit (n : Nat) (c : Char) (hc : c ∈ natChars n) :
    c.isDigit = true :=
  mem_natCharsAux_isDigit _ _ _ (List.mem_reverse.mp hc)

theorem intChars_injective : Function.Injective intChars := by
  intro a b hab
  by_cases ha : a < 0 <;> by_cases hb : b < 0
  · rw [intChars, intChars, if_pos ha, if_pos hb] at hab
    simp only [List.cons.injEq, true_and] at hab
    have := natChars_injective hab
    omega
  · rw [intChars, intChars, if_pos ha, if_neg hb] at hab
    exfalso
    have hhead : '-' ∈ natChars b.toNat := by
      rw [← hab]; exact List.mem_cons_self _ _
    have := mem_natChars_isDigit _ _ hhead
    simp [Char.isDigit] at this
  · rw [intChars, intChars, if_neg ha, if_pos hb] at hab
    exfalso
    have hhead : '-' ∈ natChars a.toNat := by
      rw [hab]; exact List.mem_cons_self _ _
    have := mem_natChars_isDigit _ _ hhead
    simp [Char.isDigit] at this
  · rw [intChars, intChars, if_neg ha, if_neg hb] at hab
    have := natChars_injective hab
    omega

theorem natChars_two_digit (n : Nat) (h10 : 10 ≤ n) (h100 : n < 100) :
    natChars n = [Nat.digitChar (n / 10), Nat.digitChar (n % 10)] := by
  have hd : n / 10 < 10 := by omega
  simp only [natChars, natCharsAux, if_neg (by omega : ¬n < 10)]
  have hfuel : 0 < n := by omega
  cases hn : n with
  | zero => omega
  | succ m =>
    simp only [natCharsAux]
    rw [if_pos (by omega : (m + 1) / 10 < 10)]
    simp

theorem natChars_len_one (n : Nat) (h : n < 10) : natChars n = [Nat.digitChar n] := by
  simp [natChars, natCharsAux, if_pos h]

theorem pad2_length (n : Nat) (h : n < 100) : (pad2 n).length = 2 := by
  by_cases h10 : n < 10
  · simp [pad2, if_pos h10, natChars_len_one n h10]
  · simp [pad2, if_neg h10, natChars_two_digit n (by omega) h]

theorem digitChar_inj_lt10 (a b : Nat) (ha : a < 10) (hb : b < 10)
    (h : Nat.digitChar a = Nat.digitChar b) : a = b := by
  interval_cases a <;> interval_cases b <;> revert h <;> decide

theorem pad2_injOn (a b : Nat) (ha : a < 100) (hb : b < 100)
    (h : pad2 a = pad2 b) : a = b := by
  by_cases ha10 : a < 10 <;> by_cases hb10 : b < 10
  · rw [pad2, pad2, if_pos ha10, if_pos hb10, natChars_len_one a ha10,
      natChars_len_one b hb10] at h
    simp only [List.cons.injEq] at h
    exact digitChar_inj_lt10 a b ha10 hb10 h.2.1
  · rw [pad2, pad2, if_pos ha10, if_neg hb10, natChars_len_one a ha10,
      natChars_two_digit b (by omega) hb] at h
    simp only [List.cons.injEq] at h
    have : b / 10 = 0 := by
      have h0 : Nat.digitChar (b / 10) = '0' := h.1.symm
      have hlt : b / 10 < 10 := by omega
      exact digitChar_inj_lt10 _ 0 hlt (by omega) (by simpa using h0)
    omega
  · rw [pad2, pad2, if_neg ha10, if_pos hb10, natChars_len_one b hb10,
      natChars_two_digit a (by omega) ha] at h
    simp only [List.cons.injEq] at h
    have : a / 10 = 0 := by
      have h0 : Nat.digitChar (a / 10) = '0' := h.1
      have hlt : a / 10 < 10 := by omega
      exact digitChar_inj_lt10 _ 0 hlt (by omega) (by simpa using h0)
    omega
  · rw [pad2, pad2, if_neg ha10, if_neg hb10] at h
    exact natChars_injective h

/-! ## The civil calendar (model of Go `time.Time` date computations)

Day numbers count days since 1970-01-01 (a Thursday).  `civilFromDays`
computes the proleptic-Gregorian `(year, month, day)` of a day number with
the standard 400-year-era algorithm; it is the model of Go's
`Time.Year/Month/Day`.  `daysFromCivil` is its inverse, proved below. -/

/-- Day-of-era of the start of March-based year `y` within an era
(`0 ≤ y ≤ 400`). -/
def yearStart (y : Nat) : Nat := 365 * y + y / 4 - y / 100

/-- The March-based year within the era that day-of-era `doe` falls in. -/
def yoeOf (doe : Nat) : Nat :=
  (doe - doe / 1460 + doe / 36524 - doe / 146096) / 365

/-- Civil `(year, month, day)` within one era from a day-of-era
(`0 ≤ doe < 146097`); year is in `0..400`. -/
def civilOfDoe (doe : Nat) : Nat × Nat × Nat :=
  let yoe := yoeOf doe
  let doy := doe - yearStart yoe
  let mp := (5 * doy + 2) / 153
  let d := doy - (153 * mp + 2) / 5 + 1
  let m := if mp < 10 then mp + 3 else mp - 9
  ((if m ≤ 2 then yoe + 1 else yoe), m, d)

/-- Inverse of `civilOfDoe` within one era. -/
def doeOfCivil (y m d : Nat) : Nat :=
  let y' := y - (if m ≤ 2 then 1 else 0)
  let mp := if m > 2 then m - 3 else m + 9
  let doy := (153 * mp + 2) / 5 + d - 1
  365 * y' + y' / 4 - y' / 100 + doy

/-- Civil `(year, month, day)` of a day number (days since 1970-01-01). -/
def civilFromDays (z : Int) : Int × Nat × Nat :=
  let z' := z + 719468
  let era := z' / 146097
  let doe := (z' % 146097).toNat
  let c := civilOfDoe doe
  (era * 400 + c.1, c.2.1, c.2.2)

/-- Day number of a civil date; inverse of `civilFromDays`. -/
def daysFromCivil (y : Int) (m d : Nat) : Int :=
  let y' := y - (if m ≤ 2 then 1 else 0)
  let era := y' / 400
  let yoe := (y' % 400).toNat
  let mp := if m > 2 then m - 3 else m + 9
  let doy := (153 * mp + 2) / 5 + d - 1
  era * 146097 + (365 * yoe + yoe / 4 - yoe / 100 + doy) - 719468

/-- Numerator of the year-of-era formula. -/
def yoeNum (n : Nat) : Nat := n - n / 1460 + n / 36524 - n / 146096

theorem yoeNum_step (n : Nat) (h : n + 1 ≤ 146096) : yoeNum n ≤ yoeNum (n + 1) := by
  have h1 := Nat.succ_div n 1460
  have h2 := Nat.succ_div n 36524
  have h3 := Nat.succ_div n 146096
  have d1 : n / 1460 ≤ n := Nat.div_le_self _ _
  have d3 : n / 146096 ≤ n := Nat.div_le_self _ _
  by_cases c3 : 146096 ∣ n + 1
  · have hn1 : n + 1 = 146096 := by
      have := Nat.le_of_dvd (by omega) c3
      omega
    have c2 : 36524 ∣ n + 1 := by rw [hn1]; decide
    have c1 : ¬1460 ∣ n + 1 := by rw [hn1]; decide
    rw [if_pos c3, if_pos c2, if_neg c1] at *
    simp only [yoeNum]
    omega
  · rw [if_neg c3] at h3
    by_cases c1 : 1460 ∣ n + 1 <;> by_cases c2 : 36524 ∣ n + 1 <;>
      simp only [if_pos, if_neg, c1, c2, ite_true, ite_false] at h1 h2 <;>
      (simp only [yoeNum]; omega)


theorem yoeNum_mono : ∀ b, b ≤ 146096 → ∀ a, a ≤ b → yoeNum a ≤ yoeNum b := by
  intro b
  induction b with
  | zero =>
    intro _ a ha
    have : a = 0 := by omega
    subst this
    exact le_refl _
  | succ b ih =>
    intro hb a ha
    rcases Nat.lt_or_ge a (b + 1) with h | h
    · exact le_trans (ih (by omega) a (by omega)) (yoeNum_step b hb)
    · have : a = b + 1 := by omega
      subst this
      exact le_refl _

theorem yoeOf_mono {a b : Nat} (hab : a ≤ b) (hb : b ≤ 146096) :
    yoeOf a ≤ yoeOf b := by
  have h := yoeNum_mono b hb a hab
  have ha' : yoeOf a = yoeNum a / 365 := rfl
  have hb' : yoeOf b = yoeNum b / 365 := rfl
  rw [ha', hb']
  exact Nat.div_le_div_right h

theorem yearStart_mono {a b : Nat} (hab : a ≤ b) : yearStart a ≤ yearStart b := by
  simp only [yearStart]
  have h1 : a / 4 ≤ b / 4 := Nat.div_le_div_right hab
  have h3 : b / 100 - a / 100 ≤ b - a := by
    have := Nat.div_le_div_right (c := 100) hab
    omega
  omega

set_option maxRecDepth 4000 in
theorem yoeOf_yearStart (y : Nat) (hy : y < 400) :
    yoeOf (yearStart y) = y ∧ yoeOf (yearStart (y + 1) - 1) = y := by
  revert y
  decide

theorem yoeOf_top : yoeOf 146096 = 399 ∧ yearStart 399 = 145731 ∧
    yearStart 400 = 146096 := by decide


theorem yearLen_le (y : Nat) : yearStart (y + 1) - yearStart y ≤ 366 := by
  simp only [yearStart]
  have h4 : (y + 1) / 4 ≤ y / 4 + 1 := by omega
  have h100 : y / 100 ≤ (y + 1) / 100 := by omega
  omega

theorem yoeOf_spec (doe : Nat) (h : doe < 146097) :
    yoeOf doe < 400 ∧ yearStart (yoeOf doe) ≤ doe ∧ doe - yearStart (yoeOf doe) < 366 ∧
      365 * yoeOf doe + yoeOf doe / 4 - yoeOf doe / 100 = yearStart (yoeOf doe) := by
  classical
  set P : Nat → Prop := fun y => yearStart y ≤ doe with hP
  have hP0 : P 0 := by simp [hP, yearStart]
  have hg : P (Nat.findGreatest P 399) :=
    Nat.findGreatest_spec (P := P) (n := 399) (m := 0) (by omega) hP0
  set g := Nat.findGreatest P 399 with hgdef
  have hgle : g ≤ 399 := Nat.findGreatest_le 399
  have hyoe_g : yoeOf doe = g := by
    have hends := yoeOf_yearStart g (by omega)
    have hlow : g ≤ yoeOf doe := by
      have := yoeOf_mono (a := yearStart g) (b := doe) hg (by omega)
      omega
    rcases Nat.lt_or_ge g 399 with h399 | h399
    · have hupper : doe < yearStart (g + 1) := by
        by_contra hcon
        push_neg at hcon
        exact absurd hcon
          (Nat.findGreatest_is_greatest (P := P) (n := 399) (k := g + 1)
            (by omega) (by omega))
      have hle1 : yearStart (g + 1) ≤ 146096 := by
        have h1 := yearStart_mono (a := g + 1) (b := 400) (by omega)
        have h2 := yoeOf_top.2.2
        omega
      have hhigh : yoeOf doe ≤ g := by
        have := yoeOf_mono (a := doe) (b := yearStart (g + 1) - 1) (by omega) (by omega)
        omega
      omega
    · have hgeq : g = 399 := by omega
      have hhigh : yoeOf doe ≤ 399 := by
        have := yoeOf_mono (a := doe) (b := 146096) (by omega) (by omega)
        have := yoeOf_top.1
        omega
      omega
  have hstart : yearStart (yoeOf doe) ≤ doe := by rw [hyoe_g]; exact hg
  have hdoy : doe - yearStart (yoeOf doe) < 366 := by
    rcases Nat.lt_or_ge g 399 with h399 | h399
    · have hupper : doe < yearStart (g + 1) := by
        by_contra hcon
        push_neg at hcon
        exact absurd hcon
          (Nat.findGreatest_is_greatest (P := P) (n := 399) (k := g + 1)
            (by omega) (by omega))
      have hlen := yearLen_le g
      rw [hyoe_g]
      omega
    · have hgeq : g = 399 := by omega
      have h399v := yoeOf_top.2.1
      rw [hyoe_g, hgeq]
      omega
  refine ⟨by omega, hstart, hdoy, rfl⟩


set_option maxRecDepth 4000 in
theorem monthTable (doy : Nat) (h : doy < 366) :
    let mp := (5 * doy + 2) / 153
    let d := doy - (153 * mp + 2) / 5 + 1
    let m := if mp < 10 then mp + 3 else mp - 9
    1 ≤ m ∧ m ≤ 12 ∧ 1 ≤ d ∧ d ≤ 31 ∧ mp ≤ 11 ∧ (153 * mp + 2) / 5 ≤ doy ∧
      (153 * (if m > 2 then m - 3 else m + 9) + 2) / 5 + d - 1 = doy := by
  revert doy
  decide

theorem civilOfDoe_spec (doe : Nat) (h : doe < 146097) :
    doeOfCivil (civilOfDoe doe).1 (civilOfDoe doe).2.1 (civilOfDoe doe).2.2 = doe ∧
      1 ≤ (civilOfDoe doe).2.1 ∧ (civilOfDoe doe).2.1 ≤ 12 ∧
      1 ≤ (civilOfDoe doe).2.2 ∧ (civilOfDoe doe).2.2 ≤ 31 ∧
      (if (civilOfDoe doe).2.1 ≤ 2 then 1 else 0) ≤ (civilOfDoe doe).1 ∧
      (civilOfDoe doe).1 - (if (civilOfDoe doe).2.1 ≤ 2 then 1 else 0) < 400 := by
  obtain ⟨hy400, hlo, hdoylt, hys⟩ := yoeOf_spec doe h
  set yoe := yoeOf doe with hyoe
  set doy := doe - yearStart yoe with hdoy
  obtain ⟨hm1, hm12, hd1, hd31, hmp11, hmple, hroundtrip⟩ := monthTable doy hdoylt
  set mp := (5 * doy + 2) / 153 with hmp
  set m := if mp < 10 then mp + 3 else mp - 9 with hmdef
  set dd := doy - (153 * mp + 2) / 5 + 1 with hdd
  have hcivil : civilOfDoe doe = ((if m ≤ 2 then yoe + 1 else yoe), m, dd) := rfl
  rw [hcivil]
  have hy'eq : (if m ≤ 2 then yoe + 1 else yoe) - (if m ≤ 2 then 1 else 0) = yoe := by
    split <;> omega
  refine ⟨?_, hm1, hm12, hd1, hd31, ?_, ?_⟩
  · simp only [doeOfCivil, hy'eq]
    omega
  · split <;> omega
  · rw [hy'eq]
    exact hy400

theorem daysFromCivil_lift (era : Int) (y0 m d : Nat)
    (hadj : (if m ≤ 2 then 1 else 0) ≤ y0)
    (hy0 : y0 - (if m ≤ 2 then 1 else 0) < 400) :
    daysFromCivil (era * 400 + y0) m d =
      era * 146097 + (doeOfCivil y0 m d : Int) - 719468 := by
  simp only [daysFromCivil, doeOfCivil]
  by_cases hm2 : m ≤ 2
  · simp only [if_pos hm2] at hadj hy0 ⊢
    have hsplit : (era * 400 + (y0 : Int) - 1) = era * 400 + ((y0 - 1 : Nat) : Int) := by
      push_cast
      omega
    rw [hsplit]
    have h2 : ((y0 - 1 : Nat) : Int) < 400 := by exact_mod_cast hy0
    have h1 : (0 : Int) ≤ ((y0 - 1 : Nat) : Int) := Int.natCast_nonneg _
    have hdiv : (era * 400 + ((y0 - 1 : Nat) : Int)) / 400 = era := by omega
    have hmod : ((era * 400 + ((y0 - 1 : Nat) : Int)) % 400).toNat = y0 - 1 := by omega
    rw [hdiv, hmod]
    omega
  · simp only [if_neg hm2] at hadj hy0 ⊢
    have hsplit : (era * 400 + (y0 : Int) - 0) = era * 400 + ((y0 : Int)) := by ring
    rw [hsplit]
    have h2 : ((y0 : Nat) : Int) < 400 := by exact_mod_cast hy0
    have h1 : (0 : Int) ≤ ((y0 : Nat) : Int) := Int.natCast_nonneg _
    have hdiv : (era * 400 + (y0 : Int)) / 400 = era := by omega
    have hmod : ((era * 400 + (y0 : Int)) % 400).toNat = y0 := by omega
    rw [hdiv, hmod]
    omega

theorem daysFromCivil_civilFromDays (z : Int) :
    daysFromCivil (civilFromDays z).1 (civilFromDays z).2.1 (civilFromDays z).2.2 = z := by
  simp only [civilFromDays]
  set z' := z + 719468 with hz'
  set era := z' / 146097 with hera
  have hmod0 : (0 : Int) ≤ z' % 146097 := Int.emod_nonneg _ (by omega)
  have hmodlt : z' % 146097 < 146097 := Int.emod_lt_of_pos _ (by omega)
  set doe := (z' % 146097).toNat with hdoe
  have hdoelt : doe < 146097 := by omega
  obtain ⟨hrt, _, _, _, _, hadj, hy0⟩ := civilOfDoe_spec doe hdoelt
  have hlift := daysFromCivil_lift era (civilOfDoe doe).1 (civilOfDoe doe).2.1
    (civilOfDoe doe).2.2 hadj hy0
  rw [hlift, hrt]
  omega

theorem civilFromDays_injective : Function.Injective civilFromDays := by
  intro a b hab
  have ha := daysFromCivil_civilFromDays a
  have hb := daysFromCivil_civilFromDays b
  rw [hab] at ha
  exact ha.symm.trans hb

theorem civilFromDays_month_day_bounds (z : Int) :
    1 ≤ (civilFromDays z).2.1 ∧ (civilFromDays z).2.1 ≤ 12 ∧
      1 ≤ (civilFromDays z).2.2 ∧ (civilFromDays z).2.2 ≤ 31 := by
  simp only [civilFromDays]
  have hmod0 : (0 : Int) ≤ (z + 719468) % 146097 := Int.emod_nonneg _ (by omega)
  have hmodlt : (z + 719468) % 146097 < 146097 := Int.emod_lt_of_pos _ (by omega)
  obtain ⟨_, h1, h2, h3, h4, _, _⟩ :=
    civilOfDoe_spec ((z + 719468) % 146097).toNat (by omega)
  exact ⟨h1, h2, h3, h4⟩

/-! ## `GoTime`: the model of Go `time.Time` values used by the audit engine -/

/-- A parsed timestamp: civil day number (days since 1970-01-01) and second of
day.  RFC 3339 timestamps are used in UTC throughout the source. -/
structure GoTime where
  dayNumber : Int
  secOfDay : Nat
deriving DecidableEq

/-- Go `Time.Year()`. -/
def GoTime.year (t : GoTime) : Int := (civilFromDays t.dayNumber).1

/-- Go `Time.Month()` as its numeric value `1..12`. -/
def GoTime.month (t : GoTime) : Nat := (civilFromDays t.dayNumber).2.1

/-- Go `Time.Day()`. -/
def GoTime.day (t : GoTime) : Nat := (civilFromDays t.dayNumber).2.2

/-- Go `Time.Hour()`. -/
def GoTime.hour (t : GoTime) : Nat := t.secOfDay / 3600

/-- Go `Time.Weekday()` (`0 = Sunday`, …, `6 = Saturday`); 1970-01-01 was a
Thursday (`4`). -/
def GoTime.weekday (t : GoTime) : Nat := ((t.dayNumber + 4) % 7).toNat

/-- Go `Time.AddDate(0, 0, n)` in UTC: shift the date, keep the clock. -/
def GoTime.addDays (t : GoTime) (n : Int) : GoTime :=
  { t with dayNumber := t.dayNumber + n }

/-- Absolute-seconds sort key modelling `Time.Before`. -/
def GoTime.absSec (t : GoTime) : Int := t.dayNumber * 86400 + t.secOfDay

/-- The zero `time.Time` that Go's `time.Parse` returns on error
(January 1 of year 1). -/
def goZeroTime : GoTime := { dayNumber := -719162, secOfDay := 0 }

/-- Go `fmt.Sprintf("%d-%02d-%02d", y, m, d)` as a character list. -/
def ymdChars (y : Int) (m d : Nat) : List Char :=
  intChars y ++ '-' :: (pad2 m ++ '-' :: pad2 d)

/-- Go `fmt.Sprintf("%d-%02d-%02d", y, m, d)`. -/
def formatYMD (y : Int) (m d : Nat) : String := String.mk (ymdChars y m d)

theorem ymdChars_injOn (y1 y2 : Int) (m1 m2 d1 d2 : Nat)
    (hm1 : m1 < 100) (hm2 : m2 < 100) (hd1 : d1 < 100) (hd2 : d2 < 100)
    (h : ymdChars y1 m1 d1 = ymdChars y2 m2 d2) :
    y1 = y2 ∧ m1 = m2 ∧ d1 = d2 := by
  simp only [ymdChars] at h
  have hlen : ('-' :: (pad2 m1 ++ '-' :: pad2 d1)).length =
      ('-' :: (pad2 m2 ++ '-' :: pad2 d2)).length := by
    simp [pad2_length m1 hm1, pad2_length m2 hm2, pad2_length d1 hd1, pad2_length d2 hd2]
  obtain ⟨hy, hrest⟩ := List.append_inj' h hlen
  have hy12 : y1 = y2 := intChars_injective hy
  simp only [List.cons.injEq, true_and] at hrest
  have hlen2 : (pad2 m1).length = (pad2 m2).length := by
    rw [pad2_length m1 hm1, pad2_length m2 hm2]
  obtain ⟨hm, hd⟩ := List.append_inj hrest hlen2
  simp only [List.cons.injEq, true_and] at hd
  exact ⟨hy12, pad2_injOn m1 m2 hm1 hm2 hm, pad2_injOn d1 d2 hd1 hd2 hd⟩

theorem formatYMD_civil_injective (a b : Int)
    (h : formatYMD (civilFromDays a).1 (civilFromDays a).2.1 (civilFromDays a).2.2 =
      formatYMD (civilFromDays b).1 (civilFromDays b).2.1 (civilFromDays b).2.2) :
    a = b := by
  obtain ⟨_, hma, _, hda⟩ := civilFromDays_month_day_bounds a
  obtain ⟨_, hmb, _, hdb⟩ := civilFromDays_month_day_bounds b
  have hdata : ymdChars (civilFromDays a).1 (civilFromDays a).2.1 (civilFromDays a).2.2 =
      ymdChars (civilFromDays b).1 (civilFromDays b).2.1 (civilFromDays b).2.2 :=
    congrArg String.data h
  obtain ⟨hy, hm, hd⟩ := ymdChars_injOn _ _ _ _ _ _
    (by omega) (by omega) (by omega) (by omega) hdata
  apply civilFromDays_injective
  have h1 := (civilFromDays a).2
  exact Prod.ext hy (Prod.ext hm hd)

/-! ## Data model (`notify_email.go` type declarations) -/

/-- Go `BackupSummary`: the summary block embedded in a snapshot. -/
structure BackupSummary where
  backupStart : String := ""
  backupEnd : String := ""
  filesNew : Int := 0
  filesChanged : Int := 0
  filesUnmodified : Int := 0
  dirsNew : Int := 0
  dirsChanged : Int := 0
  dirsUnmodified : Int := 0
  dataBlobs : Int := 0
  treeBlobs : Int := 0
  dataAdded : Int := 0
  dataAddedPacked : Int := 0
  totalFilesProcessed : Int := 0
  totalBytesProcessed : Int := 0
deriving DecidableEq

/-- Go `Snapshot` (the `notify_email.go` declaration). -/
structure Snapshot where
  time : String := ""
  parent : String := ""
  tree : String := ""
  paths : List String := []
  summary : BackupSummary := {}
  id : String := ""
deriving DecidableEq

/-- Go `GroupKey` of a snapshot group. -/
structure GroupKey where
  hostname : String := ""
  paths : List String := []
  tags : List String := []
deriving DecidableEq

/-- Go `SnapshotGroup`: one group of the `restic snapshots` JSON output. -/
structure SnapshotGroup where
  groupKey : GroupKey := {}
  snapshots : List Snapshot := []
deriving DecidableEq

/-- Go `ResticMessage`: the union of the JSON fields restic emits
(`float64` modelled as `ℚ`). -/
structure ResticMessage where
  messageType : String := ""
  filesNew : Int := 0
  filesChanged : Int := 0
  filesUnmodified : Int := 0
  dirsNew : Int := 0
  dirsChanged : Int := 0
  dirsUnmodified : Int := 0
  dataBlobs : Int := 0
  treeBlobs : Int := 0
  dataAdded : Int := 0
  dataAddedPacked : Int := 0
  totalFilesProcessed : Int := 0
  totalBytesProcessed : Int := 0
  totalDuration : ℚ := 0
  snapshotId : String := ""
  numErrors : Int := 0
  message : String := ""
deriving DecidableEq

/-- Go `BackupResult`: the parsed backup summary. -/
structure BackupResult where
  filesNew : Int := 0
  filesChanged : Int := 0
  filesUnmodified : Int := 0
  dirsNew : Int := 0
  dirsChanged : Int := 0
  dirsUnmodified : Int := 0
  dataAdded : Int := 0
  dataAddedPacked : Int := 0
  totalFilesProcessed : Int := 0
  totalBytesProcessed : Int := 0
  totalDuration : ℚ := 0
deriving DecidableEq

/-- Go `CheckResult`: the parsed check summary. -/
structure CheckResult where
  numErrors : Int := 0
deriving DecidableEq

/-- The closed set of `ActionResult` variants constructed by
`analyzeBackupResults` (the interface has exactly these implementations). -/
inductive GoActionResult where
  | backup (name : String) (success : Bool) (result : BackupResult)
      (outFile errFile : String)
  | check (name : String) (success : Bool) (result : CheckResult)
      (outFile errFile : String)
  | snapshots (name : String) (success : Bool) (snaps : List Snapshot)
      (outFile errFile : String)
deriving DecidableEq

/-- Go `ActionResult.IsSuccess()`. -/
def GoActionResult.isSuccess : GoActionResult → Bool
  | .backup _ s _ _ _ => s
  | .check _ s _ _ _ => s
  | .snapshots _ s _ _ _ => s

/-- Go `ActionResult.GetOutFile()`. -/
def GoActionResult.getOutFile : GoActionResult → String
  | .backup _ _ _ o _ => o
  | .check _ _ _ o _ => o
  | .snapshots _ _ _ o _ => o

/-- The abstract `encoding/json` decoders (a decoding failure is `none`). -/
structure JsonDecoder where
  decodeMessage : String → Option ResticMessage
  decodeSnapshotGroups : String → Option (List SnapshotGroup)

/-! ## Result parsers (`parseBackupOutput`, `parseCheckOutput`,
`parseSnapshotsOutput`, `readExitCode`, `determineActionType`) -/

/-- The loop of `parseBackupOutput` that scans lines from the end and keeps
the first whose `TrimSpace` is non-empty (already trimmed). -/
def lastNonEmptyLine (content : String) : String :=
  ((((goSplitLines content).map goTrimSpace).reverse.find? (fun l => !(l == ""))).getD "")

/-- The field copy from the decoded summary event to a `BackupResult`. -/
def backupResultOfMsg (m : ResticMessage) : BackupResult :=
  { filesNew := m.filesNew, filesChanged := m.filesChanged,
    filesUnmodified := m.filesUnmodified, dirsNew := m.dirsNew,
    dirsChanged := m.dirsChanged, dirsUnmodified := m.dirsUnmodified,
    dataAdded := m.dataAdded, dataAddedPacked := m.dataAddedPacked,
    totalFilesProcessed := m.totalFilesProcessed,
    totalBytesProcessed := m.totalBytesProcessed,
    totalDuration := m.totalDuration }

/-- Go `parseBackupOutput`: only the last non-empty line is decoded; an all-blank
input yields the zero result; a decoding failure of that line is an error
(`none`). -/
def parseBackupOutput (J : JsonDecoder) (content : String) (_success : Bool) :
    Option BackupResult :=
  let lastLine := lastNonEmptyLine content
  if lastLine == "" then some {}
  else (J.decodeMessage lastLine).map backupResultOfMsg

/-- Go `parseCheckOutput`: the whole content is one JSON object. -/
def parseCheckOutput (J : JsonDecoder) (content : String) (_success : Bool) :
    Option CheckResult :=
  (J.decodeMessage content).map (fun m => { numErrors := m.numErrors })

/-- Go `parseSnapshotsOutput`: decode the group array and flatten the groups. -/
def parseSnapshotsOutput (J : JsonDecoder) (content : String) :
    Option (List Snapshot) :=
  (J.decodeSnapshotGroups content).map (fun gs => gs.flatMap (fun g => g.snapshots))

/-- The digit run of `strconv.Atoi` (empty or any non-digit fails). -/
def decDigitsVal : List Char → Option Nat
  | [] => none
  | l => go l 0
where
  go : List Char → Nat → Option Nat
    | [], acc => some acc
    | c :: rest, acc =>
      if c.isDigit then go rest (acc * 10 + (c.toNat - '0'.toNat)) else none

/-- Go `strconv.Atoi` (with an optional sign; the int64 overflow cut-off never
applies to the exit codes that occur). -/
def goAtoi (s : String) : Option Int :=
  match s.data with
  | '+' :: rest => (decDigitsVal rest).map (fun n => (n : Int))
  | '-' :: rest => (decDigitsVal rest).map (fun n => -(n : Int))
  | l => (decDigitsVal l).map (fun n => (n : Int))

/-- Go `strings.TrimSuffix`. -/
def goTrimEnd (s suf : String) : String :=
  if suf.data.isSuffixOf s.data then
    String.mk (s.data.take (s.data.length - suf.data.length))
  else s

/-- Go `determineActionType` (the `notify_email.go` version: `backup.`-prefixed,
`check` and `snapshots`; anything else — including `forget` — is `unknown`).
The artifact names carry no directory part, so `filepath.Base` is the
identity here. -/
def determineActionType (exitcodeFile : String) : String × String :=
  let base := goTrimEnd exitcodeFile ".exitcode"
  if ("backup.".data).isPrefixOf base.data then
    ("backup", String.mk (base.data.drop 7))
  else if base == "check" then ("check", base)
  else if base == "snapshots" then ("snapshots", base)
  else ("unknown", base)

/-- Go `determineOverallSuccessFromActions`: `false` as soon as one action
failed, else `true`. -/
def determineOverallSuccessFromActions (actions : List GoActionResult) : Bool :=
  actions.all (fun a => a.isSuccess)

/-! ## Artifact scanner (`analyzeBackupResults`) -/

/-- One file of the log directory: name (no directory part), content,
modification time. -/
structure GoFile where
  name : String
  content : String
  mtime : Nat
deriving DecidableEq

/-- The log directory. -/
abbrev GoFS := List GoFile

/-- Go `os.ReadFile` (`none` = I/O error: no such file). -/
def readFile (fs : GoFS) (name : String) : Option String :=
  (fs.find? (fun f => f.name == name)).map (fun f => f.content)

/-- Modification time of a file (for stating the chronological-order claim). -/
def fileMtime (fs : GoFS) (name : String) : Nat :=
  (((fs.find? (fun f => f.name == name)).map (fun f => f.mtime))).getD 0

/-- Go `filepath.Glob(logDir + "/*.exitcode")`: the matching names in
lexicographic order (Go's glob reads the directory sorted). -/
def globExitcode (fs : GoFS) : List String :=
  List.insertionSort (fun a b => lexLe a b = true)
    ((fs.filter (fun f => (".exitcode".data).isSuffixOf f.name.data)).map (fun f => f.name))

/-- The body of the `analyzeBackupResults` loop over the globbed exit-code
files: classify, read the exit code, read the sibling `.out` file, parse by
kind, and accumulate the typed results; any failure aborts the whole
analysis.  An `unknown` kind matches no `switch` case and appends nothing. -/
def processArtifacts (J : JsonDecoder) (fs : GoFS) :
    List String → Except String (List GoActionResult)
  | [] => .ok []
  | exitcodeFile :: rest =>
    let actionType := (determineActionType exitcodeFile).1
    let actionName := (determineActionType exitcodeFile).2
    match readFile fs exitcodeFile with
    | none => .error ("failed to read exit code from " ++ exitcodeFile)
    | some codeContent =>
      match goAtoi (goTrimSpace codeContent) with
      | none => .error ("invalid exit code in " ++ exitcodeFile)
      | some exitCode =>
        let success := exitCode == 0
        let outFile := goTrimEnd exitcodeFile ".exitcode" ++ ".out"
        let errFile := goTrimEnd exitcodeFile ".exitcode" ++ ".err"
        match readFile fs outFile with
        | none => .error ("failed to read output file " ++ outFile)
        | some outContent =>
          if actionType == "backup" then
            match parseBackupOutput J outContent success with
            | none => .error ("failed to parse backup output for " ++ actionName)
            | some result =>
              (processArtifacts J fs rest).map
                (fun as => .backup actionName success result outFile errFile :: as)
          else if actionType == "check" then
            match parseCheckOutput J outContent success with
            | none => .error "failed to parse check output"
            | some result =>
              (processArtifacts J fs rest).map
                (fun as => .check actionName success result outFile errFile :: as)
          else if actionType == "snapshots" then
            match parseSnapshotsOutput J outContent with
            | none => .error "failed to parse snapshots output"
            | some snaps =>
              (processArtifacts J fs rest).map
                (fun as => .snapshots actionName success snaps outFile errFile :: as)
          else processArtifacts J fs rest

/-- Go `analyzeBackupResults`: glob, process each artifact, and derive the
overall success verdict. -/
def analyzeBackupResults (J : JsonDecoder) (fs : GoFS) :
    Except String (List GoActionResult × Bool) :=
  (processArtifacts J fs (globExitcode fs)).map
    (fun actions => (actions, determineOverallSuccessFromActions actions))

/-! ## Audit engine (`checkSizeChanges`, `checkRetentionPolicy`) -/

/-- The PathGroup key: `strings.Join(snap.Paths, ", ")`. -/
def joinPaths (paths : List String) : String := String.intercalate ", " paths

/-- The distinct PathGroup keys of a snapshot list (Go's map has them in
randomized order; `dedup` fixes one deterministic enumeration). -/
def pathKeys (snaps : List Snapshot) : List String :=
  (snaps.map (fun s => joinPaths s.paths)).dedup

/-- One PathGroup: the Go map value `groupedByPath[k]` is built by appending
in input order, i.e. it is the input-order filter. -/
def groupOf (snaps : List Snapshot) (k : String) : List Snapshot :=
  snaps.filter (fun s => joinPaths s.paths == k)

/-- The grouping map of both audit checks and of the renderer. -/
def groupByPath (snaps : List Snapshot) : List (String × List Snapshot) :=
  (pathKeys snaps).map (fun k => (k, groupOf snaps k))

/-- Audit configuration (thresholds are `float64` in the source, keep limits
are `int`). -/
structure AuditConfig where
  growThreshold : ℚ := 0
  shrinkThreshold : ℚ := 0
  keepHourly : Int := 0
  keepDaily : Int := 0
  keepWeekly : Int := 0
  keepMonthly : Int := 0
  keepYearly : Int := 0
deriving DecidableEq

/-- Go `AuditCheckResult` (the detail map is kept as ordered key-value pairs). -/
structure AuditCheckResult where
  checkType : String
  path : String
  message : String
  details : List (String × String)
deriving DecidableEq

/-- Truncated division by `den`. For the nonnegative values it is applied to
this is the floor used by the `%.1f` rounding. -/
def qfloor (q : ℚ) : Int := q.num / q.den

/-- Two-digit zero-padded rendering as a string. -/
def pad2String (n : Nat) : String := String.mk (pad2 n)

/-- Go `fmt.Sprintf("%.1f", q)` for the rationals standing in for `float64`
(round half away from zero; no claim exercises an exact binary tie). -/
def formatQ1 (q : ℚ) : String :=
  let sign := if q < 0 then "-" else ""
  let n := (qfloor (|q| * 10 + 1 / 2)).toNat
  sign ++ natToDec (n / 10) ++ "." ++ natToDec (n % 10)

/-- Go `fmt.Sprintf("%.2f", q)`. -/
def formatQ2 (q : ℚ) : String :=
  let sign := if q < 0 then "-" else ""
  let n := (qfloor (|q| * 100 + 1 / 2)).toNat
  sign ++ natToDec (n / 100) ++ "." ++ pad2String (n % 100)

/-- The unit letters of `formatBytes`. -/
def byteUnitChar (exp : Nat) : Char := (['K', 'M', 'G', 'T', 'P', 'E'].getD exp 'K')

/-- The `for n := bytes / unit; n >= unit; n /= unit` loop of `formatBytes`
(fuel 7 covers every `int64`). -/
def formatBytesLoop : Nat → Int → Int → Nat → Int × Nat
  | 0, _, div, exp => (div, exp)
  | fuel + 1, n, div, exp =>
    if 1024 ≤ n then formatBytesLoop fuel (n / 1024) (div * 1024) (exp + 1)
    else (div, exp)

/-- Go `formatBytes`: binary units with one decimal place. -/
def formatBytes (bytes : Int) : String :=
  if bytes < 1024 then intToDec bytes ++ " B"
  else
    let p := formatBytesLoop 7 (bytes / 1024) 1024 0
    formatQ1 ((bytes : ℚ) / (p.1 : ℚ)) ++ " " ++ String.mk [byteUnitChar p.2] ++ "B"

/-- The sort key of the `sort.Slice` comparators: the parsed time, with Go's
zero time for an unparsable string (`t1, _ := time.Parse(...)`). -/
def snapTimeKey (parse : String → Option GoTime) (s : Snapshot) : Int :=
  (((parse s.time).getD goZeroTime)).absSec

/-- Go `changePercent := float64(curr-prev) / float64(prev) * 100` in exact
rational arithmetic. -/
def changePercentOf (prev curr : Snapshot) : ℚ :=
  ((curr.summary.totalBytesProcessed - prev.summary.totalBytesProcessed : Int) : ℚ) /
    (prev.summary.totalBytesProcessed : ℚ) * 100

/-- The evaluation of one comparison pair by `checkSizeChanges`: percentage,
directional threshold/label selection, negation of a non-positive change, and
the inclusive `>=` test. -/
def pairViolations (cfg : AuditConfig) (path : String) (prev curr : Snapshot) :
    List AuditCheckResult :=
  let changePercent : ℚ := changePercentOf prev curr
  let threshold : ℚ := if 0 < changePercent then cfg.growThreshold else cfg.shrinkThreshold
  let checkType : String := if 0 < changePercent then "size_growth" else "size_shrink"
  let cp : ℚ := if 0 < changePercent then changePercent else -changePercent
  if threshold ≤ cp then
    [{ checkType := checkType, path := path,
       message := formatQ1 cp ++ "% change exceeds " ++ formatQ1 threshold ++ "% threshold",
       details := [("previous_size", formatBytes prev.summary.totalBytesProcessed),
                   ("current_size", formatBytes curr.summary.totalBytesProcessed),
                   ("change_percent", formatQ1 cp),
                   ("threshold", formatQ1 threshold),
                   ("previous_time", prev.time),
                   ("current_time", curr.time)] }]
  else []

/-- Go `checkSizeChanges` for one PathGroup: skip small groups, sort by parsed
time ascending, compare only the two most recent members, skip a zero-sized
previous member. -/
def checkSizeChangesGroup (cfg : AuditConfig) (parse : String → Option GoTime)
    (path : String) (snaps : List Snapshot) : List AuditCheckResult :=
  if snaps.length < 2 then []
  else
    let sorted := List.insertionSort
      (fun a b => snapTimeKey parse a ≤ snapTimeKey parse b) snaps
    match sorted.reverse with
    | curr :: prev :: _ =>
      if prev.summary.totalBytesProcessed == 0 then []
      else pairViolations cfg path prev curr
    | _ => []

/-- Go `checkSizeChanges`. -/
def checkSizeChanges (cfg : AuditConfig) (parse : String → Option GoTime)
    (snapshots : List Snapshot) : List AuditCheckResult :=
  (groupByPath snapshots).flatMap (fun e => checkSizeChangesGroup cfg parse e.1 e.2)

/-! ## Retention-policy checker (`checkRetentionPolicy`) -/

/-- The five retention granularities. -/
inductive Granularity where
  | hourly | daily | weekly | monthly | yearly
deriving DecidableEq

/-- The policy names as they appear in check types and messages. -/
def granName : Granularity → String
  | .hourly => "hourly"
  | .daily => "daily"
  | .weekly => "weekly"
  | .monthly => "monthly"
  | .yearly => "yearly"

/-- The configured keep limit of a granularity. -/
def granKeep (cfg : AuditConfig) : Granularity → Int
  | .hourly => cfg.keepHourly
  | .daily => cfg.keepDaily
  | .weekly => cfg.keepWeekly
  | .monthly => cfg.keepMonthly
  | .yearly => cfg.keepYearly

/-- The day offset `-int(t.Weekday()-time.Monday+7) % 7` (Go `%` truncates,
and unary minus binds tighter than `%`). -/
def weekStartOffset (t : GoTime) : Int :=
  (-((t.weekday : Int) - 1 + 7)).tmod 7

/-- Go `weekStart := t.AddDate(0, 0, -int(t.Weekday()-time.Monday+7)%7)`. -/
def weekStart (t : GoTime) : GoTime := t.addDays (weekStartOffset t)

/-- The weekly bucket key: year-month-day of `weekStart`. -/
def weeklyKey (t : GoTime) : String :=
  formatYMD (weekStart t).year (weekStart t).month (weekStart t).day

/-- The per-granularity bucket key (`groupBy` in the source's policy table). -/
def granBucket : Granularity → GoTime → String
  | .hourly => fun t =>
      String.mk (intChars t.year ++ '-' :: (pad2 t.month ++ '-' :: (pad2 t.day ++ '-' :: pad2 t.hour)))
  | .daily => fun t => formatYMD t.year t.month t.day
  | .weekly => weeklyKey
  | .monthly => fun t => String.mk (intChars t.year ++ '-' :: pad2 t.month)
  | .yearly => fun t => intToDec t.year

/-- The policy table order of the source. -/
def policiesOrder : List Granularity :=
  [.hourly, .daily, .weekly, .monthly, .yearly]

/-- The per-granularity body of the `checkRetentionPolicy` policy loop for
one PathGroup: drop unparsable timestamps, sort ascending, and for a non-zero
keep limit count the distinct buckets and flag an overcount. -/
def retentionPolicyViolation (cfg : AuditConfig) (parse : String → Option GoTime)
    (path : String) (snaps : List Snapshot) (p : Granularity) :
    List AuditCheckResult :=
  let snapsWithTime := snaps.filterMap (fun s => (parse s.time).map (fun t => (s, t)))
  let sorted := List.insertionSort
    (fun a b => a.2.absSec ≤ b.2.absSec) snapsWithTime
  if granKeep cfg p == 0 then []
  else
    let bucketCount := ((sorted.map (fun st => granBucket p st.2)).dedup).length
    if granKeep cfg p < (bucketCount : Int) then
      [{ checkType := "retention_" ++ granName p, path := path,
         message := "too many " ++ granName p ++ " snapshots: " ++
           natToDec bucketCount ++ " > " ++ intToDec (granKeep cfg p),
         details := [("policy", granName p),
                     ("actual", natToDec bucketCount),
                     ("expected", intToDec (granKeep cfg p)),
                     ("total_snaps", natToDec snapsWithTime.length)] }]
    else []

/-- Go `checkRetentionPolicy` for one PathGroup: the policy loop in table
order. -/
def checkRetentionPolicyGroup (cfg : AuditConfig) (parse : String → Option GoTime)
    (path : String) (snaps : List Snapshot) : List AuditCheckResult :=
  policiesOrder.flatMap (retentionPolicyViolation cfg parse path snaps)

/-- Go `checkRetentionPolicy`. -/
def checkRetentionPolicy (cfg : AuditConfig) (parse : String → Option GoTime)
    (snapshots : List Snapshot) : List AuditCheckResult :=
  (groupByPath snapshots).flatMap (fun e => checkRetentionPolicyGroup cfg parse e.1 e.2)

/-! ## Report renderer (`generateBodyFromActions`) -/

/-- Go `fmt` left-justified padding to a width (`%-20s`). -/
def padRight (s : String) (w : Nat) : String :=
  s ++ String.mk (List.replicate (w - s.data.length) ' ')

/-- Go `fmt` right-justified padding to a width (`%8d`, `%12s`). -/
def padLeft (s : String) (w : Nat) : String :=
  String.mk (List.replicate (w - s.data.length) ' ') ++ s

/-- Zero-padded four-digit year of the `"2006-01-02 15:04"` layout. -/
def pad4Year (y : Int) : String :=
  let sign := if y < 0 then "-" else ""
  let a := |y|
  sign ++
    (if a < 10 then "000" ++ intToDec a
     else if a < 100 then "00" ++ intToDec a
     else if a < 1000 then "0" ++ intToDec a
     else intToDec a)

/-- Go `Time.Minute()`. -/
def GoTime.minute (t : GoTime) : Nat := t.secOfDay % 3600 / 60

/-- Go `parsedTime.Format("2006-01-02 15:04")`. -/
def formatMinuteLayout (t : GoTime) : String :=
  pad4Year t.year ++ "-" ++ pad2String t.month ++ "-" ++ pad2String t.day ++
    " " ++ pad2String t.hour ++ ":" ++ pad2String t.minute

/-- The timestamp cell of a snapshot row: the minute-precision layout for a
parsable time, else the raw string truncated to 20 characters. -/
def snapTimeCell (parse : String → Option GoTime) (s : Snapshot) : String :=
  match parse s.time with
  | some t => formatMinuteLayout t
  | none =>
    if 20 < s.time.data.length then String.mk (s.time.data.take 20) else s.time

/-- One data row of the snapshots table
(`"%-20s | %8d | %8d | %12d | %12s | %12s\n"`). -/
def renderSnapRow (parse : String → Option GoTime) (s : Snapshot) : String :=
  padRight (snapTimeCell parse s) 20 ++ " | " ++
    padLeft (intToDec s.summary.filesNew) 8 ++ " | " ++
    padLeft (intToDec s.summary.filesChanged) 8 ++ " | " ++
    padLeft (intToDec s.summary.totalFilesProcessed) 12 ++ " | " ++
    padLeft (formatBytes s.summary.dataAdded) 12 ++ " | " ++
    padLeft (formatBytes s.summary.totalBytesProcessed) 12 ++ "\n"

/-- The header and separator rows of the snapshots table. -/
def snapTableHeader : String :=
  padRight "Date & Time" 20 ++ " | " ++ padLeft "New" 8 ++ " | " ++
    padLeft "Modified" 8 ++ " | " ++ padLeft "Total Files" 12 ++ " | " ++
    padLeft "Added Size" 12 ++ " | " ++ padLeft "Total Size" 12 ++ "\n" ++
  padRight (String.mk (List.replicate 20 '-')) 20 ++ " | " ++
    padLeft (String.mk (List.replicate 8 '-')) 8 ++ " | " ++
    padLeft (String.mk (List.replicate 8 '-')) 8 ++ " | " ++
    padLeft (String.mk (List.replicate 12 '-')) 12 ++ " | " ++
    padLeft (String.mk (List.replicate 12 '-')) 12 ++ " | " ++
    padLeft (String.mk (List.replicate 12 '-')) 12 ++ "\n"

/-- One PathGroup block of the snapshots section: path header, count, table
header, then one row per snapshot of the group in the group's order, then a
blank line. -/
def renderGroupBlock (parse : String → Option GoTime)
    (path : String) (snaps : List Snapshot) : String :=
  "Path: " ++ path ++ "\n" ++
  "Snapshots: " ++ natToDec snaps.length ++ "\n" ++
  snapTableHeader ++
  String.join (snaps.map (renderSnapRow parse)) ++
  "\n"

/-- The snapshots section of the report: group by PathGroup key, sort the
keys (`sort.Strings`), and render each group's block. -/
def snapshotsSection (parse : String → Option GoTime)
    (allSnapshots : List Snapshot) : String :=
  if allSnapshots.isEmpty then ""
  else
    "\n\nRepository Snapshots:\n" ++
    "Total snapshots: " ++ natToDec allSnapshots.length ++ "\n\n" ++
    String.join ((List.insertionSort (fun a b => lexLe a b = true) (pathKeys allSnapshots)).map
      (fun k => renderGroupBlock parse k (groupOf allSnapshots k)))

/-- One backup block of the report (the summary-info map read back by the
renderer, inlined). -/
def renderBackupBlock : GoActionResult → String
  | .backup name success r _ _ =>
    "\n" ++ (if success then "✅" else "❌") ++ " " ++ name ++ ":\n" ++
    "  Files: " ++ intToDec r.filesNew ++ " new, " ++ intToDec r.filesChanged ++
      " changed, " ++ intToDec r.filesUnmodified ++ " unmodified\n" ++
    "  Directories: " ++ intToDec r.dirsNew ++ " new, " ++ intToDec r.dirsChanged ++
      " changed, " ++ intToDec r.dirsUnmodified ++ " unmodified\n" ++
    "  Data added: " ++ formatBytes r.dataAdded ++ " (" ++
      formatBytes r.dataAddedPacked ++ " packed)\n" ++
    "  Total files processed: " ++ intToDec r.totalFilesProcessed ++ "\n" ++
    "  Total bytes processed: " ++ formatBytes r.totalBytesProcessed ++ "\n" ++
    (if 0 < r.totalDuration then "  Duration: " ++ formatQ2 r.totalDuration ++ " seconds\n"
     else "")
  | _ => ""

/-- One check line of the report. -/
def renderCheckLine : GoActionResult → String
  | .check _ success r _ _ =>
    (if success then "✅" else "❌") ++ " " ++
      (if r.numErrors == 0 then "PASSED" else "FAILED") ++ "\n"
  | _ => ""

/-- Is this a backup action result? -/
def GoActionResult.isBackup : GoActionResult → Bool
  | .backup _ _ _ _ _ => true
  | _ => false

/-- Is this a check action result? -/
def GoActionResult.isCheck : GoActionResult → Bool
  | .check _ _ _ _ _ => true
  | _ => false

/-- The snapshots carried by a snapshots action result. -/
def GoActionResult.snapshotsOf : GoActionResult → List Snapshot
  | .snapshots _ _ snaps _ _ => snaps
  | _ => []

/-- Go `generateBodyFromActions`: overall status line, backup summaries,
repository check lines, snapshots section. -/
def generateBodyFromActions (parse : String → Option GoTime)
    (actions : List GoActionResult) (success : Bool) : String :=
  let backupActions := actions.filter (fun a => a.isBackup)
  let checkActions := actions.filter (fun a => a.isCheck)
  let allSnapshots := actions.flatMap (fun a => a.snapshotsOf)
  "Overall Status: " ++ (if success then "SUCCESS" else "FAILURE") ++ "\n\n" ++
  (if backupActions.isEmpty then ""
   else "Backup Summaries:\n" ++ String.join (backupActions.map renderBackupBlock)) ++
  (if checkActions.isEmpty then ""
   else "\nRepository Check:\n" ++ String.join (checkActions.map renderCheckLine)) ++
  snapshotsSection parse allSnapshots

/-! ## Support lemmas: grouping and violation extraction -/

theorem mem_pathKeys {snaps : List Snapshot} {k : String} :
    k ∈ pathKeys snaps ↔ ∃ s ∈ snaps, joinPaths s.paths = k := by
  simp [pathKeys, List.mem_dedup]

theorem pathKeys_nodup (snaps : List Snapshot) : (pathKeys snaps).Nodup :=
  List.nodup_dedup _

theorem pairViolations_path {cfg : AuditConfig} {k : String} {p c : Snapshot}
    {v : AuditCheckResult} (hv : v ∈ pairViolations cfg k p c) : v.path = k := by
  simp only [pairViolations] at hv
  split at hv <;> split at hv <;>
    first
      | (simp only [List.mem_singleton] at hv; subst hv; rfl)
      | simp at hv

theorem checkSizeChangesGroup_path {cfg : AuditConfig}
    {parse : String → Option GoTime} {k : String} {g : List Snapshot}
    {v : AuditCheckResult} (hv : v ∈ checkSizeChangesGroup cfg parse k g) :
    v.path = k := by
  simp only [checkSizeChangesGroup] at hv
  split at hv
  · simp at hv
  · split at hv
    · split at hv
      · simp at hv
      · exact pairViolations_path hv
    · simp at hv

theorem checkRetentionPolicyGroup_path {cfg : AuditConfig}
    {parse : String → Option GoTime} {k : String} {g : List Snapshot}
    {v : AuditCheckResult} (hv : v ∈ checkRetentionPolicyGroup cfg parse k g) :
    v.path = k := by
  simp only [checkRetentionPolicyGroup, List.mem_flatMap] at hv
  obtain ⟨p, _, hv⟩ := hv
  simp only [retentionPolicyViolation] at hv
  split at hv
  · simp at hv
  · split at hv
    · simp only [List.mem_singleton] at hv
      subst hv
      rfl
    · simp at hv

/-- Filtering a per-group concatenation by one PathGroup key keeps exactly
that group's violations, since every violation carries its group's key. -/
theorem flatMap_groups_filter (G : String → List AuditCheckResult) (k : String)
    (hG : ∀ k' v, v ∈ G k' → v.path = k') :
    ∀ ks : List String, ks.Nodup →
      (ks.flatMap G).filter (fun v => v.path == k) =
        if k ∈ ks then G k else [] := by
  intro ks
  induction ks with
  | nil => intro _; simp
  | cons k' rest ih =>
    intro hnd
    rw [List.nodup_cons] at hnd
    simp only [List.flatMap_cons, List.filter_append, ih hnd.2]
    by_cases hk : k' = k
    · subst hk
      have h1 : (G k').filter (fun v => v.path == k') = G k' := by
        apply List.filter_eq_self.mpr
        intro v hv
        simp [hG k' v hv]
      rw [h1, if_neg hnd.1, if_pos (List.mem_cons_self _ _)]
      simp
    · have h1 : (G k').filter (fun v => v.path == k) = [] := by
        apply List.filter_eq_nil_iff.mpr
        intro v hv
        simp [hG k' v hv, hk]
      rw [h1]
      by_cases hmem : k ∈ rest
      · rw [if_pos hmem, if_pos (List.mem_cons_of_mem _ hmem)]
        simp
      · rw [if_neg hmem, if_neg (by simp [hk, hmem, Ne.symm])]
        simp

theorem checkSizeChanges_filter_path (cfg : AuditConfig)
    (parse : String → Option GoTime) (snaps : List Snapshot) (k : String) :
    (checkSizeChanges cfg parse snaps).filter (fun v => v.path == k) =
      if k ∈ pathKeys snaps then checkSizeChangesGroup cfg parse k (groupOf snaps k)
      else [] := by
  have hfm : checkSizeChanges cfg parse snaps =
      (pathKeys snaps).flatMap
        (fun k' => checkSizeChangesGroup cfg parse k' (groupOf snaps k')) := by
    simp only [checkSizeChanges, groupByPath]
    induction pathKeys snaps with
    | nil => rfl
    | cons a l ih => simp [List.flatMap_cons, ih]
  rw [hfm]
  exact flatMap_groups_filter _ k
    (fun k' v hv => checkSizeChangesGroup_path hv) _ (pathKeys_nodup snaps)

theorem checkRetentionPolicy_filter_path (cfg : AuditConfig)
    (parse : String → Option GoTime) (snaps : List Snapshot) (k : String) :
    (checkRetentionPolicy cfg parse snaps).filter (fun v => v.path == k) =
      if k ∈ pathKeys snaps then
        checkRetentionPolicyGroup cfg parse k (groupOf snaps k)
      else [] := by
  have hfm : checkRetentionPolicy cfg parse snaps =
      (pathKeys snaps).flatMap
        (fun k' => checkRetentionPolicyGroup cfg parse k' (groupOf snaps k')) := by
    simp only [checkRetentionPolicy, groupByPath]
    induction pathKeys snaps with
    | nil => rfl
    | cons a l ih => simp [List.flatMap_cons, ih]
  rw [hfm]
  exact flatMap_groups_filter _ k
    (fun k' v hv => checkRetentionPolicyGroup_path hv) _ (pathKeys_nodup snaps)

theorem pairViolations_ne_nil_iff (cfg : AuditConfig) (path : String)
    (prev curr : Snapshot) :
    pairViolations cfg path prev curr ≠ [] ↔
      (if 0 < changePercentOf prev curr then cfg.growThreshold
       else cfg.shrinkThreshold) ≤
        (if 0 < changePercentOf prev curr then changePercentOf prev curr
         else -changePercentOf prev curr) := by
  simp only [pairViolations]
  split <;> simp_all

theorem pairViolations_checkType (cfg : AuditConfig) (path : String)
    (prev curr : Snapshot) (v : AuditCheckResult)
    (hv : v ∈ pairViolations cfg path prev curr) :
    v.checkType = if 0 < changePercentOf prev curr then "size_growth"
      else "size_shrink" := by
  simp only [pairViolations] at hv
  split at hv <;> split at hv <;>
    first
      | (simp only [List.mem_singleton] at hv; subst hv;
         split <;> first | rfl | (exfalso; simp_all))
      | simp at hv

/-! ## Concrete inputs used by scenario claims and witnesses -/

/-- A snapshot of the audit-test shape: one path, a timestamp label, a size. -/
def snapOf (t : String) (size : Int) : Snapshot :=
  { time := t, paths := ["/data"], summary := { totalBytesProcessed := size } }

/-- A concrete stand-in for `time.Parse` mapping the labels `t1..t4` to four
consecutive hours of 1970-01-01. -/
def parse4 : String → Option GoTime := fun s =>
  if s == "t1" then some { dayNumber := 0, secOfDay := 0 }
  else if s == "t2" then some { dayNumber := 0, secOfDay := 3600 }
  else if s == "t3" then some { dayNumber := 0, secOfDay := 7200 }
  else if s == "t4" then some { dayNumber := 0, secOfDay := 10800 }
  else none

/-- Scenario C of the spec: sizes 1000 → 1100 → 1200 → 1330 for one path. -/
def snapsScenarioC : List Snapshot :=
  [snapOf "t1" 1000, snapOf "t2" 1100, snapOf "t3" 1200, snapOf "t4" 1330]

/-- Scenario C thresholds: grow 10.0, shrink 5.0. -/
def cfgScenarioC : AuditConfig := { growThreshold := 10, shrinkThreshold := 5 }

/-- C3: for an evaluated pair with positive previous size, a violation is
emitted exactly when the signed percentage is positive and at least the grow
threshold (labelled `size_growth`), or non-positive and at least the shrink
threshold in magnitude (labelled `size_shrink`); the boundary comparison is
inclusive in both directions. -/
theorem sizeChange_directional_inclusive (cfg : AuditConfig) (path : String)
    (prev curr : Snapshot) (hprev : 0 < prev.summary.totalBytesProcessed) :
    (pairViolations cfg path prev curr ≠ [] ↔
      (0 < changePercentOf prev curr ∧
        cfg.growThreshold ≤ changePercentOf prev curr) ∨
      (changePercentOf prev curr ≤ 0 ∧
        cfg.shrinkThreshold ≤ -changePercentOf prev curr)) ∧
    (∀ v ∈ pairViolations cfg path prev curr,
      (0 < changePercentOf prev curr → v.checkType = "size_growth") ∧
      (changePercentOf prev curr ≤ 0 → v.checkType = "size_shrink")) := by
  constructor
  · rw [pairViolations_ne_nil_iff]
    by_cases h : 0 < changePercentOf prev curr
    · simp only [if_pos h]
      constructor
      · intro hc
        exact Or.inl ⟨h, hc⟩
      · rintro (⟨_, hc⟩ | ⟨hc, _⟩)
        · exact hc
        · exfalso
          linarith
    · simp only [if_neg h]
      push_neg at h
      constructor
      · intro hc
        exact Or.inr ⟨h, hc⟩
      · rintro (⟨hc, _⟩ | ⟨_, hc⟩)
        · exfalso
          linarith
        · exact hc
  · intro v hv
    have hty := pairViolations_checkType cfg path prev curr v hv
    constructor
    · intro h
      rw [hty, if_pos h]
    · intro h
      rw [hty, if_neg (not_lt.mpr h)]

/-- A change of exactly the grow threshold (1000 → 1200 at 20%) is a
violation, labelled `size_growth`: the boundary is inclusive. -/
theorem sizeChange_directional_inclusive_witness :
    pairViolations { growThreshold := 20, shrinkThreshold := 5 } "/data"
      (snapOf "t1" 1000) (snapOf "t2" 1200) ≠ [] ∧
    ∀ v ∈ pairViolations { growThreshold := 20, shrinkThreshold := 5 } "/data"
      (snapOf "t1" 1000) (snapOf "t2" 1200), v.checkType = "size_growth" := by
  have h := sizeChange_directional_inclusive
    { growThreshold := 20, shrinkThreshold := 5 } "/data"
    (snapOf "t1" 1000) (snapOf "t2" 1200) (by decide)
  constructor
  · exact h.1.mpr (Or.inl (by constructor <;> decide))
  · intro v hv
    exact (h.2 v hv).1 (by decide)

/-- C7: a PathGroup with fewer than two snapshots produces no size-change
violations, and neither does a group whose second-most-recent snapshot has
`totalBytesProcessed == 0`; in both cases the guard is taken before the
percentage division, so the division by the previous size is never evaluated
with a zero divisor. -/
theorem sizeChange_guards_empty (cfg : AuditConfig)
    (parse : String → Option GoTime) (snaps : List Snapshot) (k : String) :
    ((groupOf snaps k).length < 2 →
      (checkSizeChanges cfg parse snaps).filter (fun v => v.path == k) = []) ∧
    (∀ curr prev t,
      (List.insertionSort (fun a b => snapTimeKey parse a ≤ snapTimeKey parse b)
        (groupOf snaps k)).reverse = curr :: prev :: t →
      prev.summary.totalBytesProcessed = 0 →
      (checkSizeChanges cfg parse snaps).filter (fun v => v.path == k) = []) := by
  constructor
  · intro hlen
    rw [checkSizeChanges_filter_path]
    split
    · rw [checkSizeChangesGroup, if_pos hlen]
    · rfl
  · intro curr prev t hrev hzero
    rw [checkSizeChanges_filter_path]
    split
    · rw [checkSizeChangesGroup]
      split
      · rfl
      · simp [hrev, hzero]
    · rfl

/-- A one-snapshot group and a group whose previous snapshot has size zero
both audit clean. -/
theorem sizeChange_guards_empty_witness :
    ((checkSizeChanges cfgScenarioC parse4 [snapOf "t1" 1000]).filter
      (fun v => v.path == "/data") = []) ∧
    ((checkSizeChanges cfgScenarioC parse4 [snapOf "t1" 0, snapOf "t2" 1000]).filter
      (fun v => v.path == "/data") = []) := by
  constructor
  · exact (sizeChange_guards_empty cfgScenarioC parse4 [snapOf "t1" 1000]
      "/data").1 (by decide)
  · exact (sizeChange_guards_empty cfgScenarioC parse4
      [snapOf "t1" 0, snapOf "t2" 1000] "/data").2
      (snapOf "t2" 1000) (snapOf "t1" 0) [] (by decide) (by decide)

theorem checkSizeChangesGroup_last_two (cfg : AuditConfig)
    (parse : String → Option GoTime) (k : String) (g₁ g₂ : List Snapshot)
    (h₁ : 2 ≤ g₁.length) (h₂ : 2 ≤ g₂.length)
    (h : (List.insertionSort (fun a b => snapTimeKey parse a ≤ snapTimeKey parse b)
        g₁).reverse.take 2 =
      (List.insertionSort (fun a b => snapTimeKey parse a ≤ snapTimeKey parse b)
        g₂).reverse.take 2) :
    checkSizeChangesGroup cfg parse k g₁ = checkSizeChangesGroup cfg parse k g₂ := by
  have hlen₁ : 2 ≤ (List.insertionSort
      (fun a b => snapTimeKey parse a ≤ snapTimeKey parse b) g₁).reverse.length := by
    rw [List.length_reverse, List.length_insertionSort]
    exact h₁
  have hlen₂ : 2 ≤ (List.insertionSort
      (fun a b => snapTimeKey parse a ≤ snapTimeKey parse b) g₂).reverse.length := by
    rw [List.length_reverse, List.length_insertionSort]
    exact h₂
  obtain ⟨a₁, b₁, t₁, hrev₁⟩ : ∃ a b t,
      (List.insertionSort (fun a b => snapTimeKey parse a ≤ snapTimeKey parse b)
        g₁).reverse = a :: b :: t := by
    rcases hr : (List.insertionSort
        (fun a b => snapTimeKey parse a ≤ snapTimeKey parse b) g₁).reverse with
      _ | ⟨a, _ | ⟨b, t⟩⟩
    · rw [hr] at hlen₁; simp at hlen₁
    · rw [hr] at hlen₁; simp at hlen₁
    · exact ⟨a, b, t, rfl⟩
  obtain ⟨a₂, b₂, t₂, hrev₂⟩ : ∃ a b t,
      (List.insertionSort (fun a b => snapTimeKey parse a ≤ snapTimeKey parse b)
        g₂).reverse = a :: b :: t := by
    rcases hr : (List.insertionSort
        (fun a b => snapTimeKey parse a ≤ snapTimeKey parse b) g₂).reverse with
      _ | ⟨a, _ | ⟨b, t⟩⟩
    · rw [hr] at hlen₂; simp at hlen₂
    · rw [hr] at hlen₂; simp at hlen₂
    · exact ⟨a, b, t, rfl⟩
  rw [hrev₁, hrev₂] at h
  simp only [List.take, List.cons.injEq, and_true] at h
  obtain ⟨ha, hb⟩ := h
  rw [checkSizeChangesGroup, checkSizeChangesGroup,
    if_neg (by omega), if_neg (by omega)]
  simp only [hrev₁, hrev₂, ha, hb]

/-- C2: the size-change detector of a PathGroup depends only on the two most
recent members of the time-sorted group (any two groups agreeing there
produce identical violations, so no earlier consecutive pair can contribute);
and in scenario 1000 → 1100 → 1200 → 1330 with grow threshold 10.0 exactly
one violation is produced, the `size_growth` one of the 1200 → 1330 pair. -/
theorem sizeChange_last_pair_only :
    (∀ (cfg : AuditConfig) (parse : String → Option GoTime) (k : String)
      (g₁ g₂ : List Snapshot), 2 ≤ g₁.length → 2 ≤ g₂.length →
      (List.insertionSort (fun a b => snapTimeKey parse a ≤ snapTimeKey parse b)
          g₁).reverse.take 2 =
        (List.insertionSort (fun a b => snapTimeKey parse a ≤ snapTimeKey parse b)
          g₂).reverse.take 2 →
      checkSizeChangesGroup cfg parse k g₁ = checkSizeChangesGroup cfg parse k g₂) ∧
    checkSizeChanges cfgScenarioC parse4 snapsScenarioC =
      pairViolations cfgScenarioC "/data" (snapOf "t3" 1200) (snapOf "t4" 1330) ∧
    (pairViolations cfgScenarioC "/data" (snapOf "t3" 1200) (snapOf "t4" 1330)).map
      (fun v => v.checkType) = ["size_growth"] ∧
    (checkSizeChanges cfgScenarioC parse4 snapsScenarioC).length = 1 := by
  refine ⟨checkSizeChangesGroup_last_two, ?_, ?_, ?_⟩ <;> decide

/-- Two concrete groups sharing their two most recent snapshots (one with
extra older history) produce identical violations. -/
theorem sizeChange_last_pair_only_witness :
    checkSizeChangesGroup cfgScenarioC parse4 "/data"
      [snapOf "t3" 1200, snapOf "t4" 1330] =
    checkSizeChangesGroup cfgScenarioC parse4 "/data" snapsScenarioC := by
  exact sizeChange_last_pair_only.1 cfgScenarioC parse4 "/data"
    [snapOf "t3" 1200, snapOf "t4" 1330] snapsScenarioC
    (by decide) (by decide) (by decide)

theorem lastNonEmptyLine_blank (content : String)
    (h : ∀ l ∈ goSplitLines content, goTrimSpace l = "") :
    lastNonEmptyLine content = "" := by
  have hfind : (((goSplitLines content).map goTrimSpace).reverse.find?
      (fun l => !(l == ""))) = none := by
    apply List.find?_eq_none.mpr
    intro x hx
    rw [List.mem_reverse, List.mem_map] at hx
    obtain ⟨l, hl, rfl⟩ := hx
    simp [h l hl]
  rw [lastNonEmptyLine, hfind]
  rfl

/-- C8: the backup parser considers only the last non-empty line: all-blank
input parses to the all-zero result without error; otherwise it errors
exactly when the JSON decoding of the last non-empty line fails; and two
inputs with the same last non-empty line always parse identically, so
preceding lines never affect the outcome. -/
theorem backupParser_last_line_only (J : JsonDecoder) (content : String)
    (success : Bool) :
    ((∀ l ∈ goSplitLines content, goTrimSpace l = "") →
      parseBackupOutput J content success = some {}) ∧
    (lastNonEmptyLine content ≠ "" →
      (parseBackupOutput J content success = none ↔
        J.decodeMessage (lastNonEmptyLine content) = none)) ∧
    (∀ content₂ success₂, lastNonEmptyLine content = lastNonEmptyLine content₂ →
      parseBackupOutput J content success = parseBackupOutput J content₂ success₂) := by
  refine ⟨?_, ?_, ?_⟩
  · intro hblank
    rw [parseBackupOutput]
    simp [lastNonEmptyLine_blank content hblank]
  · intro hne
    rw [parseBackupOutput]
    simp only [beq_iff_eq, if_neg hne]
    exact Option.map_eq_none'
  · intro content₂ success₂ heq
    rw [parseBackupOutput, parseBackupOutput, heq]

/-- A minimal concrete decoder: `"{}"` and `"[]"` decode to the zero values,
everything else fails. -/
def jsonOnlyBraces : JsonDecoder :=
  { decodeMessage := fun s => if s == "{}" then some {} else none,
    decodeSnapshotGroups := fun s => if s == "[]" then some [] else none }

/-- The parser maps a whitespace-only file to the zero result, errors on a
non-JSON last line, and ignores a garbage first line. -/
theorem backupParser_last_line_only_witness :
    parseBackupOutput jsonOnlyBraces " \n\t\n" true = some {} ∧
    (parseBackupOutput jsonOnlyBraces "{}\ngarbage\n" true = none ↔
      jsonOnlyBraces.decodeMessage "garbage" = none) ∧
    parseBackupOutput jsonOnlyBraces "junk\n{}\n" true =
      parseBackupOutput jsonOnlyBraces "{}" false := by
  refine ⟨?_, ?_, ?_⟩
  · exact (backupParser_last_line_only jsonOnlyBraces " \n\t\n" true).1 (by decide)
  · exact (backupParser_last_line_only jsonOnlyBraces "{}\ngarbage\n" true).2.1
      (by decide)
  · exact (backupParser_last_line_only jsonOnlyBraces "junk\n{}\n" true).2.2
      "{}" false (by decide)

/-- C9: with no `*.exitcode` files the analysis succeeds with an empty action
list and a vacuously true overall success, and the rendered report is exactly
the `SUCCESS` status line. -/
theorem emptyLogDir_success (J : JsonDecoder) (fs : GoFS)
    (parse : String → Option GoTime)
    (h : ∀ f ∈ fs, ¬(".exitcode".data.isSuffixOf f.name.data = true)) :
    analyzeBackupResults J fs = .ok ([], true) ∧
    generateBodyFromActions parse [] true = "Overall Status: SUCCESS\n\n" := by
  constructor
  · have hglob : globExitcode fs = [] := by
      rw [globExitcode]
      have hfilter : fs.filter (fun f => (".exitcode".data).isSuffixOf f.name.data) = [] := by
        apply List.filter_eq_nil_iff.mpr
        intro f hf
        exact h f hf
      rw [hfilter]
      rfl
    rw [analyzeBackupResults, hglob]
    rfl
  · rfl

/-- A directory holding only an unrelated file analyses to `SUCCESS`. -/
theorem emptyLogDir_success_witness :
    analyzeBackupResults jsonOnlyBraces
      [{ name := "notes.txt", content := "x", mtime := 3 }] = .ok ([], true) ∧
    generateBodyFromActions parse4 [] true = "Overall Status: SUCCESS\n\n" :=
  emptyLogDir_success jsonOnlyBraces
    [{ name := "notes.txt", content := "x", mtime := 3 }] parse4 (by decide)

/-- C10: an `unknown`-classified exit-code artifact is still fully validated
— a non-integer exit code aborts the analysis, and so does a missing sibling
`.out` file — yet when both reads succeed the artifact contributes no
`ActionResult` at all, so it cannot influence the overall verdict. -/
theorem unknownArtifact_validated_but_skipped (J : JsonDecoder) (fs : GoFS)
    (ef : String) (rest : List String)
    (hunknown : (determineActionType ef).1 = "unknown") :
    ((∃ c, readFile fs ef = some c ∧ goAtoi (goTrimSpace c) = none) →
      ∃ e, processArtifacts J fs (ef :: rest) = .error e) ∧
    ((∃ c z, readFile fs ef = some c ∧ goAtoi (goTrimSpace c) = some z ∧
        readFile fs (goTrimEnd ef ".exitcode" ++ ".out") = none) →
      ∃ e, processArtifacts J fs (ef :: rest) = .error e) ∧
    (∀ c z o, readFile fs ef = some c → goAtoi (goTrimSpace c) = some z →
      readFile fs (goTrimEnd ef ".exitcode" ++ ".out") = some o →
      processArtifacts J fs (ef :: rest) = processArtifacts J fs rest) := by
  refine ⟨?_, ?_, ?_⟩
  · rintro ⟨c, hc, hatoi⟩
    refine ⟨"invalid exit code in " ++ ef, ?_⟩
    rw [processArtifacts, hc]
    simp only [hatoi]
  · rintro ⟨c, z, hc, hatoi, hout⟩
    refine ⟨"failed to read output file " ++ (goTrimEnd ef ".exitcode" ++ ".out"), ?_⟩
    rw [processArtifacts, hc]
    simp only [hatoi, hout]
  · intro c z o hc hatoi hout
    rw [processArtifacts, hc]
    simp only [hatoi, hout]
    have h1 : ((determineActionType ef).1 == "backup") = false := by
      rw [hunknown]; rfl
    have h2 : ((determineActionType ef).1 == "check") = false := by
      rw [hunknown]; rfl
    have h3 : ((determineActionType ef).1 == "snapshots") = false := by
      rw [hunknown]; rfl
    simp only [h1, h2, h3]
    rfl

/-- A `forget.exitcode` artifact (an unknown kind here): a non-integer exit
code errors, a missing `.out` errors, and with both present the analysis
equals that of the rest of the directory. -/
theorem unknownArtifact_validated_but_skipped_witness :
    (∃ e, processArtifacts jsonOnlyBraces
      [{ name := "forget.exitcode", content := "zero", mtime := 0 }]
      ["forget.exitcode"] = .error e) ∧
    (∃ e, processArtifacts jsonOnlyBraces
      [{ name := "forget.exitcode", content := "0", mtime := 0 }]
      ["forget.exitcode"] = .error e) ∧
    processArtifacts jsonOnlyBraces
      [{ name := "forget.exitcode", content := "0", mtime := 0 },
       { name := "forget.out", content := "done", mtime := 0 }]
      ["forget.exitcode"] = .ok [] := by
  refine ⟨?_, ?_, ?_⟩
  · exact (unknownArtifact_validated_but_skipped jsonOnlyBraces
      [{ name := "forget.exitcode", content := "zero", mtime := 0 }]
      "forget.exitcode" [] (by decide)).1 ⟨"zero", by decide, by decide⟩
  · exact (unknownArtifact_validated_but_skipped jsonOnlyBraces
      [{ name := "forget.exitcode", content := "0", mtime := 0 }]
      "forget.exitcode" [] (by decide)).2.1 ⟨"0", 0, by decide, by decide, by decide⟩
  · exact (unknownArtifact_validated_but_skipped jsonOnlyBraces
      [{ name := "forget.exitcode", content := "0", mtime := 0 },
       { name := "forget.out", content := "done", mtime := 0 }]
      "forget.exitcode" [] (by decide)).2.2 "0" 0 "done"
      (by decide) (by decide) (by decide)

/-- The distinct-bucket count of a PathGroup for one granularity, written
over the group's parseable timestamps (specification side of C4). -/
def retentionBucketCard (parse : String → Option GoTime) (g : Granularity)
    (snaps : List Snapshot) (k : String) : Nat :=
  (((groupOf snaps k).filterMap (fun s => parse s.time)).map (granBucket g)).toFinset.card

theorem map_snd_filterMap_pair (parse : String → Option GoTime) :
    ∀ g : List Snapshot,
      ((g.filterMap (fun s => (parse s.time).map (fun t => (s, t)))).map
        (fun st => st.2)) = g.filterMap (fun s => parse s.time) := by
  intro g
  induction g with
  | nil => rfl
  | cons s rest ih =>
    simp only [List.filterMap_cons]
    cases parse s.time with
    | none => simpa using ih
    | some t => simpa using ih

theorem granName_inj (p q : Granularity) (h : granName p = granName q) : p = q := by
  cases p <;> cases q <;> first | rfl | (exfalso; revert h; decide)

/-- The per-granularity slice of a policy concatenation: check-type filtering
isolates exactly one granularity's contribution. -/
theorem flatMap_policies_filter (F : Granularity → List AuditCheckResult)
    (gr : Granularity)
    (hF : ∀ p v, v ∈ F p → v.checkType = "retention_" ++ granName p) :
    ∀ ps : List Granularity, ps.Nodup →
      (ps.flatMap F).filter
        (fun v => v.checkType == "retention_" ++ granName gr) =
      if gr ∈ ps then F gr else [] := by
  intro ps
  induction ps with
  | nil => intro _; simp
  | cons p rest ih =>
    intro hnd
    rw [List.nodup_cons] at hnd
    simp only [List.flatMap_cons, List.filter_append, ih hnd.2]
    by_cases hp : p = gr
    · subst hp
      have h1 : (F p).filter (fun v => v.checkType == "retention_" ++ granName p) = F p := by
        apply List.filter_eq_self.mpr
        intro v hv
        simp [hF p v hv]
      rw [h1, if_neg hnd.1, if_pos (List.mem_cons_self _ _)]
      simp
    · have hne : ¬("retention_" ++ granName p = "retention_" ++ granName gr) := by
        intro hcon
        apply hp
        apply granName_inj
        have := congrArg (fun s => String.mk (s.data.drop 10)) hcon
        simpa [String.data_append] using this
      have h1 : (F p).filter (fun v => v.checkType == "retention_" ++ granName gr) = [] := by
        apply List.filter_eq_nil_iff.mpr
        intro v hv
        simp [hF p v hv, hne]
      rw [h1]
      by_cases hmem : gr ∈ rest
      · rw [if_pos hmem, if_pos (List.mem_cons_of_mem _ hmem)]
        simp
      · have hno : ¬gr ∈ p :: rest := by
          intro hcon
          rcases List.mem_cons.mp hcon with h | h
          · exact hp h.symm
          · exact hmem h
        rw [if_neg hmem, if_neg hno]
        simp

theorem retentionPolicyViolation_checkType {cfg : AuditConfig}
    {parse : String → Option GoTime} {k : String} {g : List Snapshot}
    {p : Granularity} {v : AuditCheckResult}
    (hv : v ∈ retentionPolicyViolation cfg parse k g p) :
    v.checkType = "retention_" ++ granName p := by
  simp only [retentionPolicyViolation] at hv
  split at hv
  · simp at hv
  · split at hv
    · simp only [List.mem_singleton] at hv
      subst hv
      rfl
    · simp at hv

/-- The bucket count computed on the sorted pair list equals the
distinct-bucket count of the group's parseable timestamps. -/
theorem sorted_bucket_count (parse : String → Option GoTime) (p : Granularity)
    (g : List Snapshot) :
    (((List.insertionSort (fun a b => a.2.absSec ≤ b.2.absSec)
      (g.filterMap (fun s => (parse s.time).map (fun t => (s, t))))).map
        (fun st => granBucket p st.2)).dedup).length =
    ((g.filterMap (fun s => parse s.time)).map (granBucket p)).toFinset.card := by
  have hperm : List.Perm
      (List.insertionSort (fun a b => a.2.absSec ≤ b.2.absSec)
        (g.filterMap (fun s => (parse s.time).map (fun t => (s, t)))))
      (g.filterMap (fun s => (parse s.time).map (fun t => (s, t)))) :=
    List.perm_insertionSort _ _
  have hperm2 := ((hperm.map (fun st => granBucket p st.2)).dedup).length_eq
  rw [hperm2, List.card_toFinset]
  have hmap : ((g.filterMap (fun s => (parse s.time).map (fun t => (s, t)))).map
      (fun st => granBucket p st.2)) =
      ((g.filterMap (fun s => parse s.time)).map (granBucket p)) := by
    rw [← map_snd_filterMap_pair parse g, List.map_map]
    rfl
  rw [hmap]

/-- The retention violations of one PathGroup and one granularity, as
selected out of the full audit output. -/
def retentionViolationsFor (cfg : AuditConfig) (parse : String → Option GoTime)
    (snaps : List Snapshot) (k : String) (gr : Granularity) :
    List AuditCheckResult :=
  ((checkRetentionPolicy cfg parse snaps).filter (fun v => v.path == k)).filter
    (fun v => v.checkType == "retention_" ++ granName gr)

/-- C4: for an existing PathGroup and a granularity with non-zero keep limit,
a `retention_<granularity>` violation is emitted exactly when the number of
distinct calendar buckets of the group's parseable-timestamp snapshots
exceeds the limit, and its `actual` detail is that distinct-bucket count; a
zero keep limit emits nothing for that granularity. -/
theorem retention_distinct_buckets (cfg : AuditConfig)
    (parse : String → Option GoTime) (snaps : List Snapshot) (k : String)
    (hk : k ∈ pathKeys snaps) (gr : Granularity) :
    (granKeep cfg gr = 0 → retentionViolationsFor cfg parse snaps k gr = []) ∧
    (granKeep cfg gr ≠ 0 →
      (retentionViolationsFor cfg parse snaps k gr ≠ [] ↔
        granKeep cfg gr < (retentionBucketCard parse gr snaps k : Int)) ∧
      (∀ v ∈ retentionViolationsFor cfg parse snaps k gr,
        v.details.lookup "actual" =
          some (natToDec (retentionBucketCard parse gr snaps k)))) := by
  have h3 : retentionViolationsFor cfg parse snaps k gr =
      retentionPolicyViolation cfg parse k (groupOf snaps k) gr := by
    rw [retentionViolationsFor, checkRetentionPolicy_filter_path, if_pos hk,
      checkRetentionPolicyGroup,
      flatMap_policies_filter (retentionPolicyViolation cfg parse k (groupOf snaps k))
        gr (fun p v hv => retentionPolicyViolation_checkType hv) policiesOrder
        (by decide),
      if_pos (by cases gr <;> decide)]
  have hbc := sorted_bucket_count parse gr (groupOf snaps k)
  constructor
  · intro h0
    rw [h3, retentionPolicyViolation]
    simp [h0]
  · intro hne0
    constructor
    · rw [h3]
      simp only [retentionPolicyViolation]
      rw [if_neg (by simpa using hne0), retentionBucketCard, ← hbc]
      split
      · rename_i hlt
        simp only [ne_eq]
        constructor
        · intro _
          exact hlt
        · intro _
          simp
      · rename_i hlt
        simp only [ne_eq, not_true_eq_false]
        constructor
        · intro hcon
          exact hcon.elim
        · intro hcon
          exact absurd hcon hlt
    · intro v hv
      rw [h3] at hv
      simp only [retentionPolicyViolation] at hv
      split at hv
      · simp at hv
      · split at hv
        · simp only [List.mem_singleton] at hv
          subst hv
          rw [retentionBucketCard, ← hbc]
          rfl
        · simp at hv

/-- Concrete parse table for the retention witness: three consecutive days. -/
def parseRet : String → Option GoTime := fun s =>
  if s == "d1" then some { dayNumber := 0, secOfDay := 0 }
  else if s == "d2" then some { dayNumber := 1, secOfDay := 0 }
  else if s == "d3" then some { dayNumber := 2, secOfDay := 0 }
  else none

/-- One snapshot on each of three consecutive days. -/
def snapsRet : List Snapshot := [snapOf "d1" 0, snapOf "d2" 0, snapOf "d3" 0]

/-- Keep only 2 daily buckets. -/
def cfgRet : AuditConfig := { keepDaily := 2 }

/-- Three distinct days against `keep-daily = 2` flag a violation whose
`actual` detail is the distinct-bucket count 3. -/
theorem retention_distinct_buckets_witness :
    retentionViolationsFor cfgRet parseRet snapsRet "/data" .daily ≠ [] ∧
    retentionBucketCard parseRet .daily snapsRet "/data" = 3 ∧
    ∀ v ∈ retentionViolationsFor cfgRet parseRet snapsRet "/data" .daily,
      v.details.lookup "actual" =
        some (natToDec (retentionBucketCard parseRet .daily snapsRet "/data")) := by
  have h := retention_distinct_buckets cfgRet parseRet snapsRet "/data"
    (by decide) Granularity.daily
  refine ⟨(h.2 (by decide)).1.mpr (by decide), by decide, (h.2 (by decide)).2⟩

/-- Specification-side notion for C5: `w` is the Monday on or before day `d`
(Monday is weekday 1). -/
def isMondayOnOrBefore (d w : Int) : Prop :=
  ((w + 4) % 7).toNat = 1 ∧ w ≤ d ∧ d - w < 7

theorem weekStart_is_monday_on_or_before (t : GoTime) :
    isMondayOnOrBefore t.dayNumber (weekStart t).dayNumber := by
  have hmod0 : (0 : Int) ≤ (t.dayNumber + 4) % 7 := Int.emod_nonneg _ (by omega)
  have hmodlt : (t.dayNumber + 4) % 7 < 7 := Int.emod_lt_of_pos _ (by omega)
  have hcast : (((t.dayNumber + 4) % 7).toNat : Int) = (t.dayNumber + 4) % 7 :=
    Int.toNat_of_nonneg hmod0
  simp only [isMondayOnOrBefore, weekStart, GoTime.addDays, weekStartOffset,
    GoTime.weekday, hcast]
  set w := (t.dayNumber + 4) % 7 with hw
  interval_cases w
  · rw [show ((-(0 - 1 + 7) : Int)).tmod 7 = -6 from by decide]
    omega
  · rw [show ((-(1 - 1 + 7) : Int)).tmod 7 = 0 from by decide]
    omega
  · rw [show ((-(2 - 1 + 7) : Int)).tmod 7 = -1 from by decide]
    omega
  · rw [show ((-(3 - 1 + 7) : Int)).tmod 7 = -2 from by decide]
    omega
  · rw [show ((-(4 - 1 + 7) : Int)).tmod 7 = -3 from by decide]
    omega
  · rw [show ((-(5 - 1 + 7) : Int)).tmod 7 = -4 from by decide]
    omega
  · rw [show ((-(6 - 1 + 7) : Int)).tmod 7 = -5 from by decide]
    omega

theorem weekStart_addDays7 (t : GoTime) :
    (weekStart (t.addDays 7)).dayNumber = (weekStart t).dayNumber + 7 := by
  simp only [weekStart, GoTime.addDays, weekStartOffset, GoTime.weekday]
  have h7 : (t.dayNumber + 7 + 4) % 7 = (t.dayNumber + 4) % 7 := by omega
  rw [h7]
  ring

theorem weeklyKey_eq (t : GoTime) :
    weeklyKey t = formatYMD (civilFromDays (weekStart t).dayNumber).1
      (civilFromDays (weekStart t).dayNumber).2.1
      (civilFromDays (weekStart t).dayNumber).2.2 := rfl

/-- C5: the weekly retention bucket of a snapshot is keyed by the
year-month-day of the Monday on or before its date, and for any base
timestamp three snapshots exactly 7 days apart occupy three distinct weekly
buckets. -/
theorem weekly_bucket_monday_and_distinct (t : GoTime) :
    isMondayOnOrBefore t.dayNumber (weekStart t).dayNumber ∧
    [weeklyKey t, weeklyKey (t.addDays 7), weeklyKey (t.addDays 14)].Nodup := by
  refine ⟨weekStart_is_monday_on_or_before t, ?_⟩
  have h7 : (weekStart (t.addDays 7)).dayNumber = (weekStart t).dayNumber + 7 :=
    weekStart_addDays7 t
  have h14 : (weekStart (t.addDays 14)).dayNumber = (weekStart t).dayNumber + 14 := by
    have ha : t.addDays 14 = (t.addDays 7).addDays 7 := by
      simp only [GoTime.addDays]
      congr 1
      ring
    rw [ha, weekStart_addDays7, weekStart_addDays7]
    ring
  have hne : ∀ a b : Int, a ≠ b →
      formatYMD (civilFromDays a).1 (civilFromDays a).2.1 (civilFromDays a).2.2 ≠
      formatYMD (civilFromDays b).1 (civilFromDays b).2.1 (civilFromDays b).2.2 := by
    intro a b hab hcon
    exact hab (formatYMD_civil_injective a b hcon)
  simp only [List.nodup_cons, List.mem_cons, List.mem_singleton, List.not_mem_nil,
    or_false, not_or, List.nodup_nil, and_true]
  refine ⟨⟨?_, ?_⟩, ?_⟩
  · rw [weeklyKey_eq, weeklyKey_eq]
    exact hne (weekStart t).dayNumber (weekStart (t.addDays 7)).dayNumber (by omega)
  · rw [weeklyKey_eq, weeklyKey_eq]
    exact hne (weekStart t).dayNumber (weekStart (t.addDays 14)).dayNumber (by omega)
  · constructor
    · rw [weeklyKey_eq, weeklyKey_eq]
      exact hne (weekStart (t.addDays 7)).dayNumber (weekStart (t.addDays 14)).dayNumber
        (by omega)
    · exact not_false

theorem goTrimEnd_append (s suf : String) : goTrimEnd (s ++ suf) suf = s := by
  rw [goTrimEnd, if_pos]
  · apply String.ext
    simp only [String.data_append, List.length_append]
    rw [show s.data.length + suf.data.length - suf.data.length = s.data.length by omega]
    exact List.take_left s.data suf.data
  · exact List.isSuffixOf_iff_suffix.mpr (by rw [String.data_append]; exact List.suffix_append _ _)

theorem goTrimEnd_append_of_suffix (n suf : String)
    (h : suf.data.isSuffixOf n.data = true) : goTrimEnd n suf ++ suf = n := by
  obtain ⟨t, ht⟩ := List.isSuffixOf_iff_suffix.mp h
  rw [goTrimEnd, if_pos h]
  apply String.ext
  rw [String.data_append]
  have hlen : n.data.length - suf.data.length = t.length := by
    rw [← ht, List.length_append]
    omega
  rw [hlen, ← ht, List.take_left]

/-- The exit-code artifact a yielded `ActionResult` came from (recovered from
its `.out` sibling). -/
def artifactNameOf (a : GoActionResult) : String :=
  goTrimEnd a.getOutFile ".out" ++ ".exitcode"

/-- C1 as claimed: `analyzeBackupResults` yields action results sorted
ascending by the modification time of their exit-code artifacts. -/
def scanYieldsMtimeOrder : Prop :=
  ∀ (J : JsonDecoder) (fs : GoFS) (as : List GoActionResult) (b : Bool),
    analyzeBackupResults J fs = .ok (as, b) →
    List.Pairwise (fun x y => x ≤ y) (as.map (fun a => fileMtime fs (artifactNameOf a)))

/-- A log directory whose lexicographically first artifact is the most
recently modified one. -/
def fsSwapped : GoFS :=
  [{ name := "check.exitcode", content := "0", mtime := 5 },
   { name := "check.out", content := "{}", mtime := 5 },
   { name := "snapshots.exitcode", content := "0", mtime := 1 },
   { name := "snapshots.out", content := "[]", mtime := 1 }]

/-- The action results `analyzeBackupResults` produces on `fsSwapped`. -/
def actsSwapped : List GoActionResult :=
  [.check "check" true { numErrors := 0 } "check.out" "check.err",
   .snapshots "snapshots" true [] "snapshots.out" "snapshots.err"]

/-- C1 counterexample: on `fsSwapped` the scan yields the `check` artifact
(modified at 5) before the `snapshots` artifact (modified at 1), so the yield
order is not ascending in modification time. -/
theorem scanYieldsMtimeOrder_false : ¬scanYieldsMtimeOrder := by
  intro h
  have heval : analyzeBackupResults jsonOnlyBraces fsSwapped =
      .ok (actsSwapped, true) := by rfl
  have hchain := h jsonOnlyBraces fsSwapped actsSwapped true heval
  have hmap : actsSwapped.map (fun a => fileMtime fsSwapped (artifactNameOf a)) =
      [5, 1] := by rfl
  rw [hmap] at hchain
  simp only [List.pairwise_cons] at hchain
  have h51 := hchain.1 1 (by simp)
  omega

theorem processArtifacts_names_sublist (J : JsonDecoder) (fs : GoFS) :
    ∀ names : List String,
      (∀ n ∈ names, (".exitcode".data).isSuffixOf n.data = true) →
      ∀ as, processArtifacts J fs names = .ok as →
        List.Sublist (as.map artifactNameOf) names := by
  intro names
  induction names with
  | nil =>
    intro _ as h
    rw [processArtifacts] at h
    injection h with h2
    subst h2
    simp
  | cons n rest ih =>
    intro hsuf as h
    have hname : ∀ a : GoActionResult,
        a.getOutFile = goTrimEnd n ".exitcode" ++ ".out" → artifactNameOf a = n := by
      intro a ha
      rw [artifactNameOf, ha, goTrimEnd_append]
      exact goTrimEnd_append_of_suffix n ".exitcode" (hsuf n (List.mem_cons_self _ _))
    have hrest : ∀ n' ∈ rest, (".exitcode".data).isSuffixOf n'.data = true :=
      fun n' hn' => hsuf n' (List.mem_cons_of_mem _ hn')
    rw [processArtifacts] at h
    cases hrf : readFile fs n with
    | none =>
      simp only [hrf] at h
      exact Except.noConfusion h
    | some c =>
      simp only [hrf] at h
      cases hat : goAtoi (goTrimSpace c) with
      | none =>
        simp only [hat] at h
        exact Except.noConfusion h
      | some z =>
        simp only [hat] at h
        cases hout : readFile fs (goTrimEnd n ".exitcode" ++ ".out") with
        | none =>
          simp only [hout] at h
          exact Except.noConfusion h
        | some oc =>
          simp only [hout] at h
          split at h
          · cases hpb : parseBackupOutput J oc (z == 0) with
            | none =>
              simp only [hpb] at h
              exact Except.noConfusion h
            | some r =>
              simp only [hpb] at h
              cases hrec : processArtifacts J fs rest with
              | error e =>
                simp only [hrec, Except.map] at h
                exact Except.noConfusion h
              | ok as' =>
                simp only [hrec, Except.map] at h
                injection h with h2
                subst h2
                rw [List.map_cons, hname (GoActionResult.backup
                  (determineActionType n).2 (z == 0) r
                  (goTrimEnd n ".exitcode" ++ ".out")
                  (goTrimEnd n ".exitcode" ++ ".err")) rfl]
                exact List.Sublist.cons₂ n (ih hrest as' hrec)
          · split at h
            · cases hpc : parseCheckOutput J oc (z == 0) with
              | none =>
                simp only [hpc] at h
                exact Except.noConfusion h
              | some r =>
                simp only [hpc] at h
                cases hrec : processArtifacts J fs rest with
                | error e =>
                  simp only [hrec, Except.map] at h
                  exact Except.noConfusion h
                | ok as' =>
                  simp only [hrec, Except.map] at h
                  injection h with h2
                  subst h2
                  rw [List.map_cons, hname (GoActionResult.check
                    (determineActionType n).2 (z == 0) r
                    (goTrimEnd n ".exitcode" ++ ".out")
                    (goTrimEnd n ".exitcode" ++ ".err")) rfl]
                  exact List.Sublist.cons₂ n (ih hrest as' hrec)
            · split at h
              · cases hps : parseSnapshotsOutput J oc with
                | none =>
                  simp only [hps] at h
                  exact Except.noConfusion h
                | some snaps =>
                  simp only [hps] at h
                  cases hrec : processArtifacts J fs rest with
                  | error e =>
                    simp only [hrec, Except.map] at h
                    exact Except.noConfusion h
                  | ok as' =>
                    simp only [hrec, Except.map] at h
                    injection h with h2
                    subst h2
                    rw [List.map_cons, hname (GoActionResult.snapshots
                      (determineActionType n).2 (z == 0) snaps
                      (goTrimEnd n ".exitcode" ++ ".out")
                      (goTrimEnd n ".exitcode" ++ ".err")) rfl]
                    exact List.Sublist.cons₂ n (ih hrest as' hrec)
              · exact List.Sublist.cons n (ih hrest as h)

/-- C1 amended: the action results are yielded in the lexicographic
(byte-order) filename order of their exit-code artifacts — the order
`filepath.Glob` returns — independent of modification times. -/
theorem scan_yields_lexicographic_order (J : JsonDecoder) (fs : GoFS)
    (as : List GoActionResult) (b : Bool)
    (h : analyzeBackupResults J fs = .ok (as, b)) :
    List.Pairwise (fun x y => lexLe x y = true) (as.map artifactNameOf) := by
  rw [analyzeBackupResults] at h
  cases hrec : processArtifacts J fs (globExitcode fs) with
  | error e =>
    rw [hrec] at h
    exact Except.noConfusion h
  | ok asp =>
    rw [hrec] at h
    simp only [Except.map] at h
    injection h with h2
    have has : as = asp := (congrArg Prod.fst h2).symm
    subst has
    have hsufall : ∀ n ∈ globExitcode fs, (".exitcode".data).isSuffixOf n.data = true := by
      intro n hn
      rw [globExitcode] at hn
      have hmem := (List.perm_insertionSort
        (fun a b => lexLe a b = true)
        ((fs.filter (fun f => (".exitcode".data).isSuffixOf f.name.data)).map
          (fun f => f.name))).mem_iff.mp hn
      obtain ⟨f, hf, rfl⟩ := List.mem_map.mp hmem
      exact (List.mem_filter.mp hf).2
    have hsub := processArtifacts_names_sublist J fs (globExitcode fs) hsufall as hrec
    have hsorted : (globExitcode fs).Pairwise (fun x y => lexLe x y = true) :=
      List.sorted_insertionSort _ _
    exact hsorted.sublist hsub

/-- On the concrete swapped-mtime directory the yielded artifact names are in
lexicographic order. -/
theorem scan_yields_lexicographic_order_witness :
    List.Pairwise (fun x y => lexLe x y = true) (actsSwapped.map artifactNameOf) :=
  scan_yields_lexicographic_order jsonOnlyBraces fsSwapped actsSwapped true (by rfl)

/-- C6 as claimed: if the renderer sorted each PathGroup's rows newest-first,
its output would not depend on the within-group order of its input. -/
def rendererSortsWithinGroup : Prop :=
  ∀ (parse : String → Option GoTime) (a b : Snapshot),
    joinPaths a.paths = joinPaths b.paths →
    snapshotsSection parse [a, b] = snapshotsSection parse [b, a]

set_option maxRecDepth 8000 in
/-- C6 counterexample: two same-group snapshots render in their input order —
swapping them changes the section — so the rows are not re-sorted
newest-first (nor in any other input-independent order). -/
theorem rendererSortsWithinGroup_false : ¬rendererSortsWithinGroup := by
  intro h
  have hswap := h parse4 (snapOf "t1" 1000) (snapOf "t2" 1100) rfl
  revert hswap
  decide

/-- C6 amended: the snapshots section groups by PathGroup key, emits the
groups in sorted key order, and renders each group's rows in the order the
snapshots occur in the renderer's input (no re-sorting by timestamp). -/
theorem snapshotsSection_grouped_input_order (parse : String → Option GoTime)
    (snaps : List Snapshot) (hne : snaps ≠ []) :
    snapshotsSection parse snaps =
      "\n\nRepository Snapshots:\n" ++
      "Total snapshots: " ++ natToDec snaps.length ++ "\n\n" ++
      String.join ((List.insertionSort (fun a b => lexLe a b = true)
          (pathKeys snaps)).map
        (fun k => "Path: " ++ k ++ "\n" ++
          "Snapshots: " ++
            natToDec (snaps.filter (fun s => joinPaths s.paths == k)).length ++ "\n" ++
          snapTableHeader ++
          String.join ((snaps.filter (fun s => joinPaths s.paths == k)).map
            (renderSnapRow parse)) ++ "\n")) ∧
    List.Pairwise (fun a b => lexLe a b = true)
      (List.insertionSort (fun a b => lexLe a b = true) (pathKeys snaps)) := by
  constructor
  · rw [snapshotsSection, if_neg (by simpa using hne)]
    rfl
  · exact List.sorted_insertionSort _ _

/-- The two-snapshot single-group section renders with the input-order rows
after the sorted single key. -/
theorem snapshotsSection_grouped_input_order_witness :
    snapshotsSection parse4 [snapOf "t1" 1000, snapOf "t2" 1100] =
      "\n\nRepository Snapshots:\n" ++
      "Total snapshots: " ++ natToDec 2 ++ "\n\n" ++
      String.join ((List.insertionSort (fun a b => lexLe a b = true)
          (pathKeys [snapOf "t1" 1000, snapOf "t2" 1100])).map
        (fun k => "Path: " ++ k ++ "\n" ++
          "Snapshots: " ++
            natToDec ([snapOf "t1" 1000, snapOf "t2" 1100].filter
              (fun s => joinPaths s.paths == k)).length ++ "\n" ++
          snapTableHeader ++
          String.join (([snapOf "t1" 1000, snapOf "t2" 1100].filter
            (fun s => joinPaths s.paths == k)).map (renderSnapRow parse4)) ++ "\n")) := by
  have h := (snapshotsSection_grouped_input_order parse4
    [snapOf "t1" 1000, snapOf "t2" 1100] (by decide)).1
  exact h
